import Mathlib

/-!
Package otpgen: HOTP / TOTP code generation.

A shallow embedding of `otpgen.go` (package `otpgen`) together with executable
models of the Go standard-library functions it calls
(`encoding/base32`, `crypto/sha1`, `crypto/sha256`, `crypto/sha512`,
`crypto/hmac`, `encoding/binary`, `strings.ToUpper`, `math.Pow10`,
`strconv.Itoa`).

Conventions.
* A Go `string` is a Lean `String`; its bytes are the UTF-8 encoding
  (`goBytes`).  Go strings that are not valid UTF-8 are outside the model.
* A Go `[]byte` is a `List Nat` whose elements are below 256.
* `int64` / `int` values are `Int`; `uint32` / `uint64` values are `Nat`,
  with explicit reductions modulo `2 ^ w` where the Go code can wrap.
* A call either returns Go's pair `(string, error)`, or stops with a run-time
  panic, or does not finish within the loop budget (`Outcome`).
-/

namespace Otpgen

/-! ## Bytes and words -/

/-- Big-endian bytes of `v`, `n` of them (`binary.BigEndian.PutUint32/64`). -/
def beBytes : Nat → Nat → List Nat
  | 0, _ => []
  | n + 1, v => (v >>> (8 * n)) % 256 :: beBytes n v

/-- Big-endian value of a byte sequence (`binary.BigEndian.Uint32/64`). -/
def beWord : List Nat → Nat
  | [] => 0
  | b :: bs => b <<< (8 * bs.length) ||| beWord bs

/-- Big-endian value of a byte sequence, most significant byte first. -/
def beNat (bs : List Nat) : Nat :=
  bs.foldl (fun acc b => acc * 256 + b) 0

/-- Word `i` (of `w` bits) of a window of sixteen words held as one
`16 * w`-bit number, word 0 being the most significant. -/
def wordAt (w win i : Nat) : Nat := (win >>> (w * (15 - i))) % 2 ^ w

/-- Slide the window by one word: drop word 0 and append `x`. -/
def pushWord (w win x : Nat) : Nat := (win % 2 ^ (w * 15)) <<< w ||| x

/-- UTF-8 encoding of one code point. -/
def utf8Bytes (c : Char) : List Nat :=
  let v := c.toNat
  if v < 0x80 then [v]
  else if v < 0x800 then [0xC0 + v / 64, 0x80 + v % 64]
  else if v < 0x10000 then [0xE0 + v / 4096, 0x80 + v / 64 % 64, 0x80 + v % 64]
  else [0xF0 + v / 262144, 0x80 + v / 4096 % 64, 0x80 + v / 64 % 64, 0x80 + v % 64]

/-- The bytes of a Go string: `[]byte(s)`. -/
def goBytes (s : String) : List Nat :=
  (s.data.map utf8Bytes).flatten

/-! ## Merkle–Damgård hashing (FIPS 180-4) -/

/-- Message padding: a `0x80` byte, zeros, then the bit length on `lenBytes`
bytes, filling up to a multiple of the block size `bsz`. -/
def mdPad (bsz lenBytes : Nat) (msg : List Nat) : List Nat :=
  let l := msg.length
  let z := (2 * bsz - 1 - lenBytes - l % bsz) % bsz
  msg ++ 0x80 :: List.replicate z 0 ++ beBytes lenBytes (8 * l)

/-- Fold the compression function `f` over `n` consecutive blocks of `bsz` bytes. -/
def blocksFold {σ : Type} (bsz : Nat) (f : σ → List Nat → σ) : Nat → σ → List Nat → σ
  | 0, h, _ => h
  | n + 1, h, bs => blocksFold bsz f n (f h (bs.take bsz)) (bs.drop bsz)

/-- Addition of machine words of `2 ^ w = m`. -/
def addMod (m x y : Nat) : Nat := (x + y) % m

/-- Left rotation of a 32-bit word. -/
def rotl32 (x n : Nat) : Nat := ((x <<< n) ||| (x >>> (32 - n))) % 4294967296

/-- Right rotation of a `w`-bit word. -/
def rotr (w x n : Nat) : Nat := ((x >>> n) ||| (x <<< (w - n))) % 2 ^ w

/-! ### SHA-1 -/

/-- SHA-1 round function `f_t`. -/
def sha1F (t b c d : Nat) : Nat :=
  if t < 20 then (b &&& c) ||| ((b ^^^ 4294967295) &&& d)
  else if t < 40 then b ^^^ c ^^^ d
  else if t < 60 then (b &&& c) ||| (b &&& d) ||| (c &&& d)
  else b ^^^ c ^^^ d

/-- SHA-1 round constant `K_t`. -/
def sha1K (t : Nat) : Nat :=
  if t < 20 then 0x5A827999 else if t < 40 then 0x6ED9EBA1
  else if t < 60 then 0x8F1BBCDC else 0xCA62C1D6

/-- SHA-1 working variables. -/
abbrev Sha1State := Nat × Nat × Nat × Nat × Nat

/-- Run `n` SHA-1 rounds from round `t`; `win` is the sliding window
`W[t], …, W[t+15]` of the message schedule. -/
def sha1Rounds : Nat → Nat → Nat → Sha1State → Sha1State
  | 0, _, _, s => s
  | n + 1, t, win, (a, b, c, d, e) =>
    let w0 := wordAt 32 win 0
    let wn := rotl32 (wordAt 32 win 13 ^^^ wordAt 32 win 8 ^^^ wordAt 32 win 2 ^^^ w0) 1
    let a2 := (rotl32 a 5 + sha1F t b c d + e + sha1K t + w0) % 4294967296
    sha1Rounds n (t + 1) (pushWord 32 win wn) (a2, a, rotl32 b 30, c, d)

/-- SHA-1 compression of one 64-byte block. -/
def sha1Block (h : Sha1State) (blk : List Nat) : Sha1State :=
  match h, sha1Rounds 80 0 (beNat blk) h with
  | (h0, h1, h2, h3, h4), (a, b, c, d, e) =>
    (addMod 4294967296 h0 a, addMod 4294967296 h1 b, addMod 4294967296 h2 c,
     addMod 4294967296 h3 d, addMod 4294967296 h4 e)

/-- SHA-1 digest (20 bytes) of a byte sequence: `sha1.Sum`. -/
def sha1 (msg : List Nat) : List Nat :=
  let p := mdPad 64 8 msg
  match blocksFold 64 sha1Block (p.length / 64)
      (0x67452301, 0xEFCDAB89, 0x98BADCFE, 0x10325476, 0xC3D2E1F0) p with
  | (a, b, c, d, e) =>
    beBytes 4 a ++ beBytes 4 b ++ beBytes 4 c ++ beBytes 4 d ++ beBytes 4 e

/-! ### SHA-256 and SHA-512 -/

/-- The parameters in which SHA-256 and SHA-512 differ. -/
structure Sha2Params where
  /-- word size in bits -/
  w : Nat
  /-- number of rounds -/
  rounds : Nat
  /-- rotation amounts of Σ0 -/
  bigS0 : Nat × Nat × Nat
  /-- rotation amounts of Σ1 -/
  bigS1 : Nat × Nat × Nat
  /-- rotation, rotation and shift amounts of σ0 -/
  smallS0 : Nat × Nat × Nat
  /-- rotation, rotation and shift amounts of σ1 -/
  smallS1 : Nat × Nat × Nat
  /-- round constants -/
  k : List Nat

/-- SHA-2 working variables. -/
abbrev Sha2State := Nat × Nat × Nat × Nat × Nat × Nat × Nat × Nat

/-- The function Σ (three rotations). -/
def sha2BigSigma (w : Nat) (r : Nat × Nat × Nat) (x : Nat) : Nat :=
  rotr w x r.1 ^^^ rotr w x r.2.1 ^^^ rotr w x r.2.2

/-- The function σ (two rotations and a shift). -/
def sha2SmallSigma (w : Nat) (r : Nat × Nat × Nat) (x : Nat) : Nat :=
  rotr w x r.1 ^^^ rotr w x r.2.1 ^^^ (x >>> r.2.2)

/-- Run `n` SHA-2 rounds; `ks` are the remaining round constants and `win`
the sliding window `W[t], …, W[t+15]` of the message schedule. -/
def sha2Rounds (p : Sha2Params) : Nat → List Nat → Nat → Sha2State → Sha2State
  | 0, _, _, s => s
  | n + 1, ks, win, (a, b, c, d, e, f, g, h) =>
    let m := 2 ^ p.w
    let w0 := wordAt p.w win 0
    let wn := (sha2SmallSigma p.w p.smallS1 (wordAt p.w win 14) + wordAt p.w win 9
                + sha2SmallSigma p.w p.smallS0 (wordAt p.w win 1) + w0) % m
    let ch := (e &&& f) ^^^ ((e ^^^ (m - 1)) &&& g)
    let maj := (a &&& b) ^^^ (a &&& c) ^^^ (b &&& c)
    let t1 := (h + sha2BigSigma p.w p.bigS1 e + ch + ks.headD 0 + w0) % m
    let t2 := (sha2BigSigma p.w p.bigS0 a + maj) % m
    sha2Rounds p n ks.tail (pushWord p.w win wn)
      ((t1 + t2) % m, a, b, c, (d + t1) % m, e, f, g)

/-- SHA-2 compression of one block of sixteen words. -/
def sha2Block (p : Sha2Params) (h : Sha2State) (blk : List Nat) : Sha2State :=
  match h, sha2Rounds p p.rounds p.k (beNat blk) h with
  | (h0, h1, h2, h3, h4, h5, h6, h7), (a, b, c, d, e, f, g, i) =>
    let m := 2 ^ p.w
    (addMod m h0 a, addMod m h1 b, addMod m h2 c, addMod m h3 d,
     addMod m h4 e, addMod m h5 f, addMod m h6 g, addMod m h7 i)

/-- SHA-2 digest of a byte sequence from the initial value `iv`. -/
def sha2 (p : Sha2Params) (iv : Sha2State) (msg : List Nat) : List Nat :=
  let n := p.w / 8
  let padded := mdPad (16 * n) (2 * n) msg
  match blocksFold (16 * n) (sha2Block p) (padded.length / (16 * n)) iv padded with
  | (a, b, c, d, e, f, g, h) =>
    beBytes n a ++ beBytes n b ++ beBytes n c ++ beBytes n d ++
    beBytes n e ++ beBytes n f ++ beBytes n g ++ beBytes n h

/-- Parameters of SHA-256.  The round constants are the first 32 bits of the
fractional parts of the cube roots of the first 64 primes, written in decimal. -/
def sha256Params : Sha2Params where
  w := 32
  rounds := 64
  bigS0 := (2, 13, 22)
  bigS1 := (6, 11, 25)
  smallS0 := (7, 18, 3)
  smallS1 := (17, 19, 10)
  k := [
   1116352408, 1899447441, 3049323471, 3921009573, 961987163, 1508970993,
   2453635748, 2870763221, 3624381080, 310598401, 607225278, 1426881987,
   1925078388, 2162078206, 2614888103, 3248222580, 3835390401, 4022224774,
   264347078, 604807628, 770255983, 1249150122, 1555081692, 1996064986,
   2554220882, 2821834349, 2952996808, 3210313671, 3336571891, 3584528711,
   113926993, 338241895, 666307205, 773529912, 1294757372, 1396182291,
   1695183700, 1986661051, 2177026350, 2456956037, 2730485921, 2820302411,
   3259730800, 3345764771, 3516065817, 3600352804, 4094571909, 275423344,
   430227734, 506948616, 659060556, 883997877, 958139571, 1322822218,
   1537002063, 1747873779, 1955562222, 2024104815, 2227730452, 2361852424,
   2428436474, 2756734187, 3204031479, 3329325298]

/-- SHA-256 digest (32 bytes): `sha256.Sum256`. -/
def sha256 (msg : List Nat) : List Nat :=
  sha2 sha256Params
    (1779033703, 3144134277, 1013904242, 2773480762,
     1359893119, 2600822924, 528734635, 1541459225) msg

/-- Parameters of SHA-512.  The round constants are the first 64 bits of the
fractional parts of the cube roots of the first 80 primes, written in decimal. -/
def sha512Params : Sha2Params where
  w := 64
  rounds := 80
  bigS0 := (28, 34, 39)
  bigS1 := (14, 18, 41)
  smallS0 := (1, 8, 7)
  smallS1 := (19, 61, 6)
  k := [
   4794697086780616226, 8158064640168781261, 13096744586834688815, 16840607885511220156,
   4131703408338449720, 6480981068601479193, 10538285296894168987, 12329834152419229976,
   15566598209576043074, 1334009975649890238, 2608012711638119052, 6128411473006802146,
   8268148722764581231, 9286055187155687089, 11230858885718282805, 13951009754708518548,
   16472876342353939154, 17275323862435702243, 1135362057144423861, 2597628984639134821,
   3308224258029322869, 5365058923640841347, 6679025012923562964, 8573033837759648693,
   10970295158949994411, 12119686244451234320, 12683024718118986047, 13788192230050041572,
   14330467153632333762, 15395433587784984357, 489312712824947311, 1452737877330783856,
   2861767655752347644, 3322285676063803686, 5560940570517711597, 5996557281743188959,
   7280758554555802590, 8532644243296465576, 9350256976987008742, 10552545826968843579,
   11727347734174303076, 12113106623233404929, 14000437183269869457, 14369950271660146224,
   15101387698204529176, 15463397548674623760, 17586052441742319658, 1182934255886127544,
   1847814050463011016, 2177327727835720531, 2830643537854262169, 3796741975233480872,
   4115178125766777443, 5681478168544905931, 6601373596472566643, 7507060721942968483,
   8399075790359081724, 8693463985226723168, 9568029438360202098, 10144078919501101548,
   10430055236837252648, 11840083180663258601, 13761210420658862357, 14299343276471374635,
   14566680578165727644, 15097957966210449927, 16922976911328602910, 17689382322260857208,
   500013540394364858, 748580250866718886, 1242879168328830382, 1977374033974150939,
   2944078676154940804, 3659926193048069267, 4368137639120453308, 4836135668995329356,
   5532061633213252278, 6448918945643986474, 6902733635092675308, 7801388544844847127]

/-- SHA-512 digest (64 bytes): `sha512.Sum512`. -/
def sha512 (msg : List Nat) : List Nat :=
  sha2 sha512Params
    (7640891576956012808, 13503953896175478587, 4354685564936845355, 11912009170470909681,
     5840696475078001361, 11170449401992604703, 2270897969802886507, 6620516959819538809) msg

/-! ## HMAC (RFC 2104, `crypto/hmac`) -/

/-- The three hash functions `generateOTP` can select. -/
inductive HashAlg where
  | sha1
  | sha256
  | sha512
  deriving DecidableEq, Repr

/-- The digest function: `h.Sum` after writing the message. -/
def HashAlg.sum : HashAlg → List Nat → List Nat
  | .sha1 => Otpgen.sha1
  | .sha256 => Otpgen.sha256
  | .sha512 => Otpgen.sha512

/-- Block size in bytes: `h.BlockSize()`. -/
def HashAlg.blockSize : HashAlg → Nat
  | .sha1 => 64
  | .sha256 => 64
  | .sha512 => 128

/-- Digest size in bytes: `h.Size()`. -/
def HashAlg.size : HashAlg → Nat
  | .sha1 => 20
  | .sha256 => 32
  | .sha512 => 64

/-- The value of `hmacinit.Sum(nil)` after `hmac.New(h, key)` and
`hmacinit.Write(msg)`: keys longer than a block are hashed first, the key is
zero-padded to a block, and the digest is `H(opad ‖ H(ipad ‖ msg))`. -/
def hmacSum (alg : HashAlg) (key msg : List Nat) : List Nat :=
  let k0 := if key.length > alg.blockSize then alg.sum key else key
  let k := k0 ++ List.replicate (alg.blockSize - k0.length) 0
  alg.sum (k.map (· ^^^ 0x5c) ++ alg.sum (k.map (· ^^^ 0x36) ++ msg))

/-! ## Base-32 (RFC 4648, `encoding/base32`, `StdEncoding`) -/

/-- The standard alphabet `encodeStd`. -/
def b32Alphabet : List Char := "ABCDEFGHIJKLMNOPQRSTUVWXYZ234567".data

/-- Encode one group of one to five bytes into eight characters, the unused
positions holding the padding character. -/
def b32EncodeGroup (g : List Nat) : List Char :=
  let v := beWord (g ++ List.replicate (5 - g.length) 0)
  let chars := (List.range 8).map fun i => b32Alphabet.getD ((v >>> (35 - 5 * i)) % 32) 'A'
  let keep := match g.length with
    | 1 => 2
    | 2 => 4
    | 3 => 5
    | 4 => 7
    | _ => 8
  chars.take keep ++ List.replicate (8 - keep) '='

/-- Encode group after group; the first argument bounds the number of groups. -/
def b32Encode : Nat → List Nat → List Char
  | 0, _ => []
  | n + 1, src => if src = [] then [] else b32EncodeGroup (src.take 5) ++ b32Encode n (src.drop 5)

/-- The function `base32.StdEncoding.EncodeToString`. -/
def base32EncodeToString (src : List Nat) : String :=
  String.mk (b32Encode src.length src)

/-- The table `decodeMap` of `StdEncoding`: the value of an alphabet byte, and
`0xFF` for every other byte. -/
def b32DecodeMap (c : Nat) : Nat :=
  if 65 ≤ c ∧ c ≤ 90 then c - 65 else if 50 ≤ c ∧ c ≤ 55 then c - 24 else 0xFF

/-- The function `stripNewlines`: drop every `\r` and `\n`. -/
def stripNewlines (src : List Nat) : List Nat :=
  src.filter fun b => !(b == 13 || b == 10)

/-- The inner loop `for j := 0; j < 8` of `Encoding.decode`, from position `j`
with `n = 8 - j` positions to go.  Returns the values read (`dbuf[:dlen]`), the
flag `end` and the unread input, or `none` for a `CorruptInputError`. -/
def b32ReadQuantum : Nat → Nat → List Nat → List Nat → Option (List Nat × Bool × List Nat)
  | 0, _, dbuf, src => some (dbuf, false, src)
  | _ + 1, _, _, [] => none
  | n + 1, j, dbuf, c :: src =>
    if c = 61 ∧ 2 ≤ j ∧ src.length < 8 then
      if src.length + j < 8 - 1 then none
      else if (src.take (8 - 1 - j)).any (fun b => b != 61) then none
      else if j = 1 ∨ j = 3 ∨ j = 6 then none
      else some (dbuf, true, src)
    else
      let v := b32DecodeMap c
      if v = 0xFF then none else b32ReadQuantum n (j + 1) (dbuf ++ [v]) src

/-- The `switch dlen` of `Encoding.decode`: pack up to eight 5-bit values into
up to five bytes. -/
def b32Pack (dbuf : List Nat) : List Nat :=
  let d := fun i => dbuf.getD i 0
  let out := [(d 0 <<< 3 ||| d 1 >>> 2) % 256,
              (d 1 <<< 6 ||| d 2 <<< 1 ||| d 3 >>> 4) % 256,
              (d 3 <<< 4 ||| d 4 >>> 1) % 256,
              (d 4 <<< 7 ||| d 5 <<< 2 ||| d 6 >>> 3) % 256,
              (d 6 <<< 5 ||| d 7) % 256]
  match dbuf.length with
  | 8 => out
  | 7 => out.take 4
  | 5 => out.take 3
  | 4 => out.take 2
  | 2 => out.take 1
  | _ => []

/-- The outer loop `for len(src) > 0 && !end` of `Encoding.decode`; the first
argument bounds the number of quanta. -/
def b32Decode : Nat → List Nat → Option (List Nat)
  | 0, _ => some []
  | n + 1, src =>
    if src = [] then some []
    else match b32ReadQuantum 8 0 [] src with
      | none => none
      | some (dbuf, true, _) => some (b32Pack dbuf)
      | some (dbuf, false, rest) =>
        match b32Decode n rest with
        | none => none
        | some out => some (b32Pack dbuf ++ out)

/-- The function `base32.StdEncoding.DecodeString`: `none` stands for a
non-nil error. -/
def base32DecodeString (s : String) : Option (List Nat) :=
  let src := stripNewlines (goBytes s)
  b32Decode src.length src

/-! ## Other library functions -/

/-- The function `unicode.ToUpper` as far as comparison with an ASCII string
can tell: ASCII lower-case letters, and the two non-ASCII letters whose upper
case is ASCII (U+017F long s, U+0131 dotless i).  Go maps every other
non-ASCII rune to a non-ASCII rune; the model leaves those unchanged. -/
def toUpperRune (c : Char) : Char :=
  if c.toNat = 0x17F then 'S' else if c.toNat = 0x131 then 'I' else c.toUpper

/-- The function `strings.ToUpper`. -/
def toUpper (s : String) : String := String.mk (s.data.map toUpperRune)

/-- The value `uint32(math.Pow10(digits))`, as compiled by gc for amd64
(the float is converted to `int64` and the low 32 bits are kept).
A negative `digits` gives a float below 1, truncated to 0; for
`0 ≤ digits ≤ 18` the power is exact as a float and as an `int64`; from
`digits = 19` on the float is beyond `int64` (or `+Inf`), the conversion gives
`0x8000000000000000`, whose low 32 bits are 0. -/
def pow10Uint32 (digits : Int) : Nat :=
  if digits < 0 then 0
  else if digits ≤ 18 then 10 ^ digits.toNat % 4294967296
  else 0

/-- The expression `strconv.Itoa(int(otp))` for a `uint32` value `otp`. -/
def itoa (otp : Nat) : String := Nat.repr otp

/-- Conversion `uint64(counter)` of an `int64`. -/
def uint64 (x : Int) : Nat := (x % 18446744073709551616).toNat

/-- An `int64` result after two's-complement wrap-around. -/
def wrapInt64 (x : Int) : Int :=
  (x + 9223372036854775808) % 18446744073709551616 - 9223372036854775808

/-! ## The package `otpgen` -/

/-- What a call does: it returns Go's pair `(string, error)` (`err = none` is
`nil`), or it panics, or its loop is still running when the budget is spent. -/
inductive Outcome where
  | ret (code : String) (err : Option String)
  | fault (msg : String)
  | timeout
  deriving DecidableEq, Repr

/-- The type `TOTP`. -/
structure TOTP where
  Secret : String
  Digits : Int
  Algorithm : String
  Period : Int
  UnixTime : Int
  deriving DecidableEq, Repr

/-- The type `HOTP`. -/
structure HOTP where
  Secret : String
  Digits : Int
  Counter : Int
  deriving DecidableEq, Repr

/-- The loop `for len(result) != digits { result = "0" + result }`; `fuel`
bounds the number of times the condition is evaluated.  The strings here are
ASCII, so the byte length is the number of characters. -/
def padLoop : Nat → String → Int → Option String
  | 0, _, _ => none
  | fuel + 1, result, digits =>
    if (result.length : Int) ≠ digits then padLoop fuel ("0" ++ result) digits
    else some result

/-- The `switch strings.ToUpper(algo)` of `generateOTP`; `none` is the
`default` case. -/
def selectHash (algo : String) : Option HashAlg :=
  let u := toUpper algo
  if u = "SHA1" then some .sha1
  else if u = "SHA256" then some .sha256
  else if u = "SHA512" then some .sha512
  else none

/-- The function `generateOTP`.  (`hmacinit.Write` never fails, so the branch
returning "unable to compute HMAC" has no counterpart.) -/
def generateOTP (fuel : Nat) (base32Key : String) (counter : Int) (digits : Int)
    (algo : String) : Outcome :=
  let counterbytes := beBytes 8 (uint64 counter)
  match base32DecodeString base32Key with
  | none => .ret "" (some "bad secret key")
  | some secretKey =>
    match selectHash algo with
    | none => .ret "" (some "invalid algorithm. Please use any one of SHA1/SHA256/SHA512")
    | some alg =>
      let hash := hmacSum alg secretKey counterbytes
      match hash.getLast? with
      | none => .fault "index out of range"
      | some last =>
        let offset := last &&& 0xF
        if hash.length < offset + 4 then .fault "slice bounds out of range"
        else
          let hash := (hash.drop offset).take 4
          let hash := match hash with
            | [] => []
            | b :: bs => (b &&& 0x7F) :: bs
          let decimal := beWord hash
          let modulus := pow10Uint32 digits
          if modulus = 0 then .fault "integer divide by zero"
          else
            let otp := decimal % modulus
            let result := itoa otp
            match padLoop fuel result digits with
            | none => .timeout
            | some result => .ret result none

/-- The three defaulting assignments of `TOTP.Generate`. -/
def TOTP.defaulted (totp : TOTP) : TOTP :=
  let totp := if totp.Digits = 0 then { totp with Digits := 6 } else totp
  let totp := if totp.Algorithm = "" then { totp with Algorithm := "SHA256" } else totp
  if totp.Period = 0 then { totp with Period := 30 } else totp

/-- The value of `currentUnixTime` before the division; `now` is the value of
`time.Now().Unix()`. -/
def TOTP.timestamp (now : Int) (totp : TOTP) : Int :=
  let T0 : Int := 0
  if totp.UnixTime ≠ 0 then totp.UnixTime else wrapInt64 (now - T0)

/-- The value of `currentUnixTime` after `currentUnixTime /= totp.Period`
(Go's `/` truncates toward zero), for the period already defaulted. -/
def TOTP.counter (now : Int) (totp : TOTP) : Int :=
  wrapInt64 (Int.tdiv (totp.timestamp now) totp.Period)

/-- The method `(*TOTP).Generate`: the receiver after the call and the outcome. -/
def TOTP.Generate (fuel : Nat) (now : Int) (totp : TOTP) : TOTP × Outcome :=
  if totp.Secret = "" then (totp, .ret "" (some "no secret key provided"))
  else
    let totp := totp.defaulted
    if totp.Period = 0 then (totp, .fault "integer divide by zero")
    else (totp, generateOTP fuel totp.Secret (totp.counter now) totp.Digits totp.Algorithm)

/-- The method `(*HOTP).Generate`: the receiver after the call and the outcome. -/
def HOTP.Generate (fuel : Nat) (hotp : HOTP) : HOTP × Outcome :=
  if hotp.Secret = "" then (hotp, .ret "" (some "no secret key provided"))
  else
    let hotp := if hotp.Digits = 0 then { hotp with Digits := 6 } else hotp
    (hotp, generateOTP fuel hotp.Secret hotp.Counter hotp.Digits "SHA1")


/-! ## Auxiliary definitions for the statements -/

/-- Name under which `generateOTP` selects a hash function. -/
def HashAlg.name : HashAlg → String
  | .sha1 => "SHA1"
  | .sha256 => "SHA256"
  | .sha512 => "SHA512"

/-- The value of `decimal` in `generateOTP` for a given HMAC output. -/
def dynTrunc (hash : List Nat) : Nat :=
  let offset := hash.getLast?.getD 0 &&& 0xF
  beWord (match (hash.drop offset).take 4 with
    | [] => []
    | b :: bs => (b &&& 0x7F) :: bs)

/-- The counter as the specification serialises it: the unsigned 64-bit number
with the same two's-complement representation, most significant byte first. -/
def specCounterBytes (counter : Int) : List Nat :=
  let u := if counter < 0 then counter + 2 ^ 64 else counter
  (List.range 8).map fun i => u.toNat / 256 ^ (7 - i) % 256

/-- The code as the specification computes it from the raw key: HMAC over the
counter bytes, offset from the low four bits of the last byte, four bytes read
as a big-endian number with the top bit cleared, reduced modulo `10 ^ digits`,
written in decimal and left-padded with `'0'` to `digits` characters. -/
def specCode (alg : HashAlg) (key : List Nat) (counter : Int) (digits : Nat) : String :=
  let H := hmacSum alg key (specCounterBytes counter)
  let offset := H.getD (H.length - 1) 0 % 16
  let D := (H.getD offset 0 * 2 ^ 24 + H.getD (offset + 1) 0 * 2 ^ 16
            + H.getD (offset + 2) 0 * 2 ^ 8 + H.getD (offset + 3) 0) % 2 ^ 31
  let code := D % 10 ^ digits
  let s := Nat.repr code
  String.mk (List.replicate (digits - s.length) '0') ++ s

/-- The secret of the RFC 4226 / RFC 6238 SHA-1 test vectors, base-32 encoded
as `TestHOTP` and `TestTOTP` do. -/
def rfcSecret20 : String := base32EncodeToString (goBytes "12345678901234567890")

/-- The secret of the RFC 6238 SHA-256 test vectors, base-32 encoded. -/
def rfcSecret32 : String :=
  base32EncodeToString (goBytes "12345678901234567890123456789012")

/-- The secret of the RFC 6238 SHA-512 test vectors, base-32 encoded. -/
def rfcSecret64 : String :=
  base32EncodeToString
    (goBytes "1234567890123456789012345678901234567890123456789012345678901234")

/-- The values of type `int64`. -/
def isInt64 (x : Int) : Prop := -9223372036854775808 ≤ x ∧ x < 9223372036854775808

instance (x : Int) : Decidable (isInt64 x) := by
  unfold isInt64
  exact inferInstance

/-- Byte code of the alphabet character that stands for the 5-bit value `v`. -/
def b32Code (v : Nat) : Nat := (b32Alphabet.getD v 'A').toNat

/-- The eight 5-bit values of a group of up to five bytes, zero-filled. -/
def b32Digits (g : List Nat) : List Nat :=
  (List.range 8).map fun i =>
    (beWord (g ++ List.replicate (5 - g.length) 0) >>> (35 - 5 * i)) % 32

/-- Number of alphabet characters that encode a group of `n` bytes. -/
def b32Keep (n : Nat) : Nat :=
  match n with
  | 1 => 2
  | 2 => 4
  | 3 => 5
  | 4 => 7
  | _ => 8

/-- The bytes of the encoding of one group. -/
def b32GroupCodes (g : List Nat) : List Nat :=
  ((b32Digits g).take (b32Keep g.length)).map b32Code
    ++ List.replicate (8 - b32Keep g.length) 61

/-- The bytes of the encoding of a byte sequence. -/
def b32EncCodes : Nat → List Nat → List Nat
  | 0, _ => []
  | n + 1, src =>
    if src = [] then [] else b32GroupCodes (src.take 5) ++ b32EncCodes n (src.drop 5)

/-- Whether a byte is a character of the standard alphabet: `A`-`Z` or `2`-`7`. -/
def isAlphabetByte (b : Nat) : Prop := (65 ≤ b ∧ b ≤ 90) ∨ (50 ≤ b ∧ b ≤ 55)

instance (b : Nat) : Decidable (isAlphabetByte b) := by
  unfold isAlphabetByte
  exact inferInstance

/-- The error `generateOTP` returns in the `default` case of its `switch`. -/
def invalidAlgorithm : String := "invalid algorithm. Please use any one of SHA1/SHA256/SHA512"

/-- Two characters that are equal or are the two cases of one basic Latin
letter. -/
def sameLetter (c c' : Char) : Bool :=
  c == c'
  || (decide (65 ≤ c.toNat) && decide (c.toNat ≤ 90) && decide (c'.toNat = c.toNat + 32))
  || (decide (65 ≤ c'.toNat) && decide (c'.toNat ≤ 90) && decide (c.toNat = c'.toNat + 32))

/-- Character lists that differ only in letter case. -/
def sameUpToCaseList : List Char → List Char → Bool
  | [], [] => true
  | c :: cs, c' :: cs' => sameLetter c c' && sameUpToCaseList cs cs'
  | _, _ => false

/-- Strings that differ only in letter case. -/
def sameUpToCase (a b : String) : Bool := sameUpToCaseList a.data b.data

/-- The `d` low decimal digits of `n`, most significant first. -/
def decPad : Nat → Nat → List Char
  | 0, _ => []
  | d + 1, n => decPad d (n / 10) ++ [Nat.digitChar (n % 10)]

/-- A padded final group: 2, 4, 5 or 7 alphabet characters, then `=` up to the
eighth character, then at most as many further bytes as the group has
alphabet characters. -/
def isPaddedTail (src : List Nat) : Prop :=
  ∃ j ∈ [2, 4, 5, 7], 8 ≤ src.length ∧ src.length ≤ 8 + j
    ∧ (∀ b ∈ src.take j, isAlphabetByte b) ∧ (∀ b ∈ (src.take 8).drop j, b = 61)

instance (src : List Nat) : Decidable (isPaddedTail src) := by
  unfold isPaddedTail
  exact inferInstance

/-- Well-formed input of the decoder: groups of eight alphabet characters,
ended by nothing or by one padded final group.  The first argument bounds the
number of groups. -/
def b32WellFormed : Nat → List Nat → Prop
  | 0, src => src = []
  | n + 1, src =>
    src = [] ∨ isPaddedTail src
      ∨ (8 ≤ src.length ∧ (∀ b ∈ src.take 8, isAlphabetByte b) ∧ b32WellFormed n (src.drop 8))

/-- Decision procedure for `b32WellFormed`. -/
def b32WellFormedDec : (n : Nat) → (src : List Nat) → Decidable (b32WellFormed n src)
  | 0, src => by
    unfold b32WellFormed
    exact inferInstance
  | n + 1, src => by
    unfold b32WellFormed
    have := b32WellFormedDec n (src.drop 8)
    exact inferInstance

instance (n : Nat) (src : List Nat) : Decidable (b32WellFormed n src) := b32WellFormedDec n src

/-- A secret is well-formed base-32 when, CR and LF dropped, its bytes are
well-formed input of the decoder. -/
def wellFormedSecret (s : String) : Prop :=
  b32WellFormed (stripNewlines (goBytes s)).length (stripNewlines (goBytes s))

instance (s : String) : Decidable (wellFormedSecret s) := by
  unfold wellFormedSecret
  exact inferInstance

/-- Generalisation of `isPaddedTail` to a group of which `j0` characters have
been read: the rest of the group and what follows it. -/
def tailFrom (j0 : Nat) (src : List Nat) : Prop :=
  ∃ j ∈ [2, 4, 5, 7], j0 ≤ j ∧ 8 ≤ src.length + j0 ∧ src.length + j0 ≤ 8 + j
    ∧ (∀ b ∈ src.take (j - j0), isAlphabetByte b)
    ∧ (∀ b ∈ (src.take (8 - j0)).drop (j - j0), b = 61)


/-! ## Facts about the library models -/

theorem beBytes_length (n v : Nat) : (beBytes n v).length = n := by
  induction n with
  | zero => rfl
  | succ n ih => simp [beBytes, ih]

theorem beBytes_lt (n v b : Nat) (h : b ∈ beBytes n v) : b < 256 := by
  induction n with
  | zero => simp [beBytes] at h
  | succ n ih =>
    simp only [beBytes, List.mem_cons] at h
    rcases h with h | h
    · subst h; exact Nat.mod_lt _ (by decide)
    · exact ih h

theorem sha1_length (msg : List Nat) : (sha1 msg).length = 20 := by
  simp [sha1, beBytes_length]

theorem sha1_lt (msg : List Nat) (b : Nat) (h : b ∈ sha1 msg) : b < 256 := by
  simp only [sha1] at h
  simp only [List.mem_append] at h
  rcases h with (((h | h) | h) | h) | h <;> exact beBytes_lt _ _ _ h

theorem sha2_length (p : Sha2Params) (iv : Sha2State) (msg : List Nat) :
    (sha2 p iv msg).length = 8 * (p.w / 8) := by
  simp only [sha2]
  simp only [List.length_append, beBytes_length]
  omega

theorem sha2_lt (p : Sha2Params) (iv : Sha2State) (msg : List Nat) (b : Nat)
    (h : b ∈ sha2 p iv msg) : b < 256 := by
  simp only [sha2] at h
  simp only [List.mem_append] at h
  rcases h with ((((((h | h) | h) | h) | h) | h) | h) | h <;> exact beBytes_lt _ _ _ h

theorem sum_length (alg : HashAlg) (msg : List Nat) : (alg.sum msg).length = alg.size := by
  cases alg
  · exact sha1_length msg
  · simp [HashAlg.sum, HashAlg.size, sha256, sha2_length, sha256Params]
  · simp [HashAlg.sum, HashAlg.size, sha512, sha2_length, sha512Params]

theorem sum_lt (alg : HashAlg) (msg : List Nat) (b : Nat) (h : b ∈ alg.sum msg) : b < 256 := by
  cases alg
  · exact sha1_lt msg b h
  · exact sha2_lt _ _ msg b h
  · exact sha2_lt _ _ msg b h

theorem hmacSum_length (alg : HashAlg) (key msg : List Nat) :
    (hmacSum alg key msg).length = alg.size := by
  simp only [hmacSum]
  exact sum_length _ _

theorem hmacSum_lt (alg : HashAlg) (key msg : List Nat) (b : Nat)
    (h : b ∈ hmacSum alg key msg) : b < 256 := by
  simp only [hmacSum] at h
  exact sum_lt _ _ b h

theorem size_ge (alg : HashAlg) : 20 ≤ alg.size := by
  cases alg <;> simp [HashAlg.size]

/-! ## The padding loop -/

theorem zero_append_length (s : String) : ("0" ++ s).length = s.length + 1 := by
  rw [String.length_append]
  have : "0".length = 1 := rfl
  omega

/-- The string made of `k` zeros followed by `s`. -/
theorem padLoop_eq (k : Nat) : ∀ (fuel : Nat) (result : String) (digits : Int),
    (result.length : Int) + k = digits → k < fuel →
    padLoop fuel result digits = some (String.mk (List.replicate k '0') ++ result) := by
  induction k with
  | zero =>
    intro fuel result digits h hf
    obtain ⟨f, rfl⟩ : ∃ f, fuel = f + 1 := ⟨fuel - 1, by omega⟩
    have h2 : (result.length : Int) = digits := by simpa using h
    simp only [padLoop, h2, ne_eq, not_true_eq_false, if_false, List.replicate]
    congr 1
  | succ k ih =>
    intro fuel result digits h hf
    obtain ⟨f, rfl⟩ : ∃ f, fuel = f + 1 := ⟨fuel - 1, by omega⟩
    have h2 : (result.length : Int) ≠ digits := by omega
    simp only [padLoop, h2, ne_eq, not_false_eq_true, if_true]
    rw [ih f ("0" ++ result) digits (by rw [zero_append_length]; push_cast; omega) (by omega)]
    congr 1
    apply String.ext
    simp [List.replicate_succ', String.append]

theorem padLoop_none (fuel : Nat) : ∀ (result : String) (digits : Int),
    digits < (result.length : Int) → padLoop fuel result digits = none := by
  induction fuel with
  | zero => intro _ _ _; rfl
  | succ f ih =>
    intro result digits h
    have h2 : (result.length : Int) ≠ digits := by omega
    simp only [padLoop, h2, ne_eq, not_false_eq_true, if_true]
    exact ih _ _ (by rw [zero_append_length]; push_cast; omega)


/-! ## The straight-line part of `generateOTP` -/

theorem selectHash_name (alg : HashAlg) : selectHash alg.name = some alg := by
  cases alg <;> decide

theorem and_0xF_lt (x : Nat) : x &&& 0xF < 16 :=
  Nat.and_lt_two_pow x (show 15 < 2 ^ 4 by decide)

/-- Once the secret decodes and the algorithm is recognised, `generateOTP`
takes the remainder of `dynTrunc` and pads it. -/
theorem generateOTP_eq (fuel : Nat) (secret : String) (key : List Nat) (counter digits : Int)
    (algo : String) (alg : HashAlg)
    (hkey : base32DecodeString secret = some key) (halg : selectHash algo = some alg) :
    generateOTP fuel secret counter digits algo =
      if pow10Uint32 digits = 0 then .fault "integer divide by zero"
      else match padLoop fuel
          (itoa (dynTrunc (hmacSum alg key (beBytes 8 (uint64 counter))) % pow10Uint32 digits))
          digits with
        | none => .timeout
        | some result => .ret result none := by
  have hlen := hmacSum_length alg key (beBytes 8 (uint64 counter))
  have h20 := size_ge alg
  simp only [generateOTP, hkey, halg]
  cases hl : (hmacSum alg key (beBytes 8 (uint64 counter))).getLast? with
  | none =>
    rw [List.getLast?_eq_none_iff] at hl
    rw [hl] at hlen
    simp at hlen
    omega
  | some last =>
    have ho := and_0xF_lt last
    have hb : ¬ (hmacSum alg key (beBytes 8 (uint64 counter))).length < (last &&& 0xF) + 4 := by
      omega
    simp only [hb, if_false, dynTrunc, hl, Option.getD_some]


/-! ## Agreement with the specified algorithm -/

theorem counterBytes_eq (counter : Int)
    (hc : -9223372036854775808 ≤ counter ∧ counter < 9223372036854775808) :
    beBytes 8 (uint64 counter) = specCounterBytes counter := by
  have hu : uint64 counter = (if counter < 0 then counter + 2 ^ 64 else counter).toNat := by
    unfold uint64
    split <;> omega
  rw [hu]
  simp only [beBytes, specCounterBytes, Nat.shiftRight_eq_div_pow]
  simp [List.range, List.range.loop]

theorem be4_eq (b0 b1 b2 b3 : Nat) (h1 : b1 < 256) (h2 : b2 < 256) (h3 : b3 < 256) :
    beWord [b0 &&& 0x7F, b1, b2, b3]
      = (b0 * 2 ^ 24 + b1 * 2 ^ 16 + b2 * 2 ^ 8 + b3) % 2 ^ 31 := by
  have hm : b0 &&& 0x7F = b0 % 128 := Nat.and_pow_two_sub_one_eq_mod b0 7
  simp only [beWord, List.length_cons, List.length_nil, hm, Nat.shiftLeft_eq]
  have e3 : b3 * 2 ^ (8 * 0) ||| 0 = b3 := by simp
  have e2 : b2 * 2 ^ (8 * (0 + 1)) ||| b3 = 2 ^ 8 * b2 + b3 := by
    rw [Nat.mul_add_lt_is_or (by simpa using h3) b2]; simp [Nat.mul_comm]
  have e1 : b1 * 2 ^ (8 * (0 + 1 + 1)) ||| (2 ^ 8 * b2 + b3) = 2 ^ 16 * b1 + (2 ^ 8 * b2 + b3) := by
    rw [Nat.mul_add_lt_is_or (by omega) b1]; simp [Nat.mul_comm]
  have e0 : b0 % 128 * 2 ^ (8 * (0 + 1 + 1 + 1)) ||| (2 ^ 16 * b1 + (2 ^ 8 * b2 + b3))
      = 2 ^ 24 * (b0 % 128) + (2 ^ 16 * b1 + (2 ^ 8 * b2 + b3)) := by
    rw [Nat.mul_add_lt_is_or (by omega) (b0 % 128)]; simp [Nat.mul_comm]
  rw [e3, e2, e1, e0]
  omega

theorem window_eq (l : List Nat) (o : Nat) (h : o + 4 ≤ l.length) :
    (l.drop o).take 4 = [l.getD o 0, l.getD (o + 1) 0, l.getD (o + 2) 0, l.getD (o + 3) 0] := by
  apply List.ext_getElem
  · simp; omega
  · intro i h1 h2
    have hi : i < 4 := by simpa using h2
    interval_cases i <;> simp [List.getD_eq_getElem?_getD] <;>
      rw [List.getElem?_eq_getElem (by omega)] <;> simp


/-! ## Base-32: decoding an encoding -/

theorem alphabet_char (v : Nat) :
    utf8Bytes (b32Alphabet.getD v 'A') = [b32Code v]
    ∧ b32Code v ≠ 10 ∧ b32Code v ≠ 13 ∧ b32Code v ≠ 61 := by
  by_cases h : v < 32
  · interval_cases v <;> decide
  · have : b32Alphabet.getD v 'A' = 'A' := by
      rw [List.getD_eq_getElem?_getD, List.getElem?_eq_none (by
        have : b32Alphabet.length = 32 := by decide
        omega)]
      rfl
    unfold b32Code
    rw [this]
    decide

theorem decodeMap_code (v : Nat) (h : v < 32) : b32DecodeMap (b32Code v) = v := by
  interval_cases v <;> decide

theorem encodeGroup_eq (g : List Nat) :
    b32EncodeGroup g
      = ((b32Digits g).take (b32Keep g.length)).map (fun v => b32Alphabet.getD v 'A')
        ++ List.replicate (8 - b32Keep g.length) '=' := by
  simp only [b32EncodeGroup, b32Digits, b32Keep, List.map_take, List.map_map]
  rfl

theorem goBytes_append (a b : List Char) :
    goBytes (String.mk (a ++ b)) = goBytes (String.mk a) ++ goBytes (String.mk b) := by
  simp [goBytes]

theorem stripNewlines_append (a b : List Nat) :
    stripNewlines (a ++ b) = stripNewlines a ++ stripNewlines b := by
  simp [stripNewlines]

theorem strip_alphabet (ds : List Nat) :
    stripNewlines (goBytes (String.mk (ds.map fun v => b32Alphabet.getD v 'A')))
      = ds.map b32Code := by
  induction ds with
  | nil => rfl
  | cons v ds ih =>
    have h := alphabet_char v
    have e : goBytes (String.mk ((v :: ds).map fun v => b32Alphabet.getD v 'A'))
        = b32Code v :: goBytes (String.mk (ds.map fun v => b32Alphabet.getD v 'A')) := by
      simp only [goBytes, List.map_cons, List.flatten_cons, h.1]
      rfl
    rw [e]
    simp only [stripNewlines, List.map_cons] at ih ⊢
    rw [List.filter_cons_of_pos (by simp [h.2.1, h.2.2.1]), ih]

theorem strip_pad (n : Nat) :
    stripNewlines (goBytes (String.mk (List.replicate n '='))) = List.replicate n 61 := by
  induction n with
  | zero => rfl
  | succ n ih =>
    have e : goBytes (String.mk (List.replicate (n + 1) '='))
        = 61 :: goBytes (String.mk (List.replicate n '=')) := by
      simp [goBytes, List.replicate_succ]
      rfl
    rw [e]
    simp only [stripNewlines] at ih ⊢
    rw [List.filter_cons_of_pos (by decide), ih, List.replicate_succ]

theorem strip_encode (n : Nat) : ∀ bs : List Nat,
    stripNewlines (goBytes (String.mk (b32Encode n bs))) = b32EncCodes n bs := by
  induction n with
  | zero => intro bs; rfl
  | succ n ih =>
    intro bs
    by_cases hb : bs = []
    · simp [b32Encode, b32EncCodes, hb]; rfl
    · simp only [b32Encode, b32EncCodes, hb, if_false]
      rw [goBytes_append, stripNewlines_append, ih, encodeGroup_eq, goBytes_append,
        stripNewlines_append, strip_alphabet, strip_pad]
      rfl


theorem readQuantum_digits (rest : List Nat) (ds : List Nat) :
    ∀ (n j : Nat) (dbuf : List Nat), n = ds.length → (∀ v ∈ ds, v < 32) →
      b32ReadQuantum n j dbuf (ds.map b32Code ++ rest) = some (dbuf ++ ds, false, rest) := by
  induction ds with
  | nil =>
    intro n j dbuf hn _
    subst hn
    simp [b32ReadQuantum]
  | cons v ds ih =>
    intro n j dbuf hn hv
    subst hn
    have h61 := (alphabet_char v).2.2.2
    have hv32 : v < 32 := hv v (List.mem_cons_self _ _)
    have hff : v ≠ 255 := by omega
    simp only [List.map_cons, List.cons_append, List.length_cons, b32ReadQuantum, h61,
      false_and, if_false, decodeMap_code v hv32, hff]
    exact (ih ds.length (j + 1) (dbuf ++ [v]) rfl
      (fun x hx => hv x (List.mem_cons_of_mem _ hx))).trans (by simp)

theorem readQuantum_padded (ds : List Nat) :
    ∀ (n j : Nat) (dbuf : List Nat), n + j = 8 → 2 ≤ j + ds.length → j + ds.length < 8 →
      j + ds.length ≠ 3 → j + ds.length ≠ 6 → (∀ v ∈ ds, v < 32) →
      b32ReadQuantum n j dbuf
          (ds.map b32Code ++ List.replicate (8 - (j + ds.length)) 61)
        = some (dbuf ++ ds, true, List.replicate (7 - (j + ds.length)) 61) := by
  induction ds with
  | nil =>
    intro n j dbuf hn h2 h8 h3 h6 _
    simp only [List.length_nil, Nat.add_zero] at h2 h8 h3 h6 ⊢
    obtain ⟨m, rfl⟩ : ∃ m, n = m + 1 := ⟨n - 1, by omega⟩
    obtain ⟨k, hk⟩ : ∃ k, 8 - j = k + 1 := ⟨7 - j, by omega⟩
    have hk7 : 7 - j = k := by omega
    rw [hk, hk7]
    simp only [List.map_nil, List.nil_append, List.replicate_succ, b32ReadQuantum,
      List.length_replicate, List.append_nil]
    have c1 : (61 = 61 ∧ 2 ≤ j ∧ k < 8) := ⟨rfl, h2, by omega⟩
    have c2 : ¬ (k + j < 8 - 1) := by omega
    have c3 : ((List.replicate k 61).take (8 - 1 - j)).any (fun b => b != 61) = false := by
      rw [List.any_eq_false]
      intro x hx
      have := List.mem_of_mem_take hx
      rw [List.mem_replicate] at this
      simp [this.2]
    have c4 : ¬ (j = 1 ∨ j = 3 ∨ j = 6) := by omega
    simp only [c1, and_self, if_true, c2, if_false, c3, c4]
    simp
  | cons v ds ih =>
    intro n j dbuf hn h2 h8 h3 h6 hv
    simp only [List.length_cons] at h2 h8 h3 h6 ⊢
    obtain ⟨m, rfl⟩ : ∃ m, n = m + 1 := ⟨n - 1, by omega⟩
    have h61 := (alphabet_char v).2.2.2
    have hv32 : v < 32 := hv v (List.mem_cons_self _ _)
    have hff : v ≠ 255 := by omega
    simp only [List.map_cons, List.cons_append, b32ReadQuantum, h61,
      false_and, if_false, decodeMap_code v hv32, hff]
    have e : j + (ds.length + 1) = j + 1 + ds.length := by omega
    rw [e]
    exact (ih m (j + 1) (dbuf ++ [v]) (by omega) (by omega) (by omega) (by omega) (by omega)
      (fun x hx => hv x (List.mem_cons_of_mem _ hx))).trans (by simp)


theorem or_eq_add (i a b : Nat) (h : b < 2 ^ i) : a * 2 ^ i ||| b = a * 2 ^ i + b := by
  rw [Nat.mul_comm]
  exact (Nat.mul_add_lt_is_or h a).symm

theorem beWord5 (a b c d e : Nat) (hb : b < 256) (hc : c < 256) (hd : d < 256)
    (he : e < 256) :
    beWord [a, b, c, d, e] = a * 2 ^ 32 + b * 2 ^ 24 + c * 2 ^ 16 + d * 2 ^ 8 + e := by
  simp only [beWord, List.length_cons, List.length_nil, Nat.shiftLeft_eq]
  have e4 : e * 2 ^ (8 * 0) ||| 0 = e := by simp
  have e3 : d * 2 ^ (8 * (0 + 1)) ||| e = d * 2 ^ 8 + e := or_eq_add 8 d e (by omega)
  have e2 : c * 2 ^ (8 * (0 + 1 + 1)) ||| (d * 2 ^ 8 + e) = c * 2 ^ 16 + (d * 2 ^ 8 + e) :=
    or_eq_add 16 c _ (by omega)
  have e1 : b * 2 ^ (8 * (0 + 1 + 1 + 1)) ||| (c * 2 ^ 16 + (d * 2 ^ 8 + e))
      = b * 2 ^ 24 + (c * 2 ^ 16 + (d * 2 ^ 8 + e)) := or_eq_add 24 b _ (by omega)
  have e0 : a * 2 ^ (8 * (0 + 1 + 1 + 1 + 1)) ||| (b * 2 ^ 24 + (c * 2 ^ 16 + (d * 2 ^ 8 + e)))
      = a * 2 ^ 32 + (b * 2 ^ 24 + (c * 2 ^ 16 + (d * 2 ^ 8 + e))) := or_eq_add 32 a _ (by omega)
  rw [e4, e3, e2, e1, e0]
  omega

/-- The bytes that `b32Pack` assembles from the eight 5-bit digits of a 40-bit
word are the five bytes of that word. -/
theorem pack_word (V : Nat) :
    ((V / 2 ^ 35 % 32) <<< 3 ||| (V / 2 ^ 30 % 32) >>> 2) % 256 = V / 2 ^ 32 % 256
    ∧ ((V / 2 ^ 30 % 32) <<< 6 ||| (V / 2 ^ 25 % 32) <<< 1 ||| (V / 2 ^ 20 % 32) >>> 4) % 256
        = V / 2 ^ 24 % 256
    ∧ ((V / 2 ^ 20 % 32) <<< 4 ||| (V / 2 ^ 15 % 32) >>> 1) % 256 = V / 2 ^ 16 % 256
    ∧ ((V / 2 ^ 15 % 32) <<< 7 ||| (V / 2 ^ 10 % 32) <<< 2 ||| (V / 2 ^ 5 % 32) >>> 3) % 256
        = V / 2 ^ 8 % 256
    ∧ ((V / 2 ^ 5 % 32) <<< 5 ||| V % 32) % 256 = V % 256 := by
  simp only [Nat.shiftLeft_eq, Nat.shiftRight_eq_div_pow]
  refine ⟨?_, ?_, ?_, ?_, ?_⟩
  · rw [or_eq_add 3 _ _ (by omega)]
    omega
  · rw [or_eq_add 6 _ _ (by omega)]
    have e : V / 2 ^ 30 % 32 * 2 ^ 6 + V / 2 ^ 25 % 32 * 2 ^ 1
        = (V / 2 ^ 30 % 32 * 32 + V / 2 ^ 25 % 32) * 2 ^ 1 := by omega
    rw [e, or_eq_add 1 _ _ (by omega)]
    omega
  · rw [or_eq_add 4 _ _ (by omega)]
    omega
  · rw [or_eq_add 7 _ _ (by omega)]
    have e : V / 2 ^ 15 % 32 * 2 ^ 7 + V / 2 ^ 10 % 32 * 2 ^ 2
        = (V / 2 ^ 15 % 32 * 32 + V / 2 ^ 10 % 32) * 2 ^ 2 := by omega
    rw [e, or_eq_add 2 _ _ (by omega)]
    omega
  · rw [or_eq_add 5 _ _ (by omega)]
    omega


theorem digits_eq (g : List Nat) :
    b32Digits g =
      let V := beWord (g ++ List.replicate (5 - g.length) 0)
      [V / 2 ^ 35 % 32, V / 2 ^ 30 % 32, V / 2 ^ 25 % 32, V / 2 ^ 20 % 32,
       V / 2 ^ 15 % 32, V / 2 ^ 10 % 32, V / 2 ^ 5 % 32, V % 32] := by
  simp [b32Digits, List.range, List.range.loop, Nat.shiftRight_eq_div_pow]

theorem digits_lt (g : List Nat) (v : Nat) (h : v ∈ b32Digits g) : v < 32 := by
  simp only [b32Digits, List.mem_map] at h
  obtain ⟨i, _, rfl⟩ := h
  exact Nat.mod_lt _ (by decide)

theorem digits_length (g : List Nat) : (b32Digits g).length = 8 := by
  simp [b32Digits]

theorem pack_group5 (a b c d e : Nat) (ha : a < 256) (hb : b < 256) (hc : c < 256)
    (hd : d < 256) (he : e < 256) :
    b32Pack (b32Digits [a, b, c, d, e]) = [a, b, c, d, e]
    ∧ b32Pack ((b32Digits [a, b, c, d, e]).take 7) = [a, b, c, d]
    ∧ b32Pack ((b32Digits [a, b, c, d, e]).take 5) = [a, b, c]
    ∧ b32Pack ((b32Digits [a, b, c, d, e]).take 4) = [a, b]
    ∧ b32Pack ((b32Digits [a, b, c, d, e]).take 2) = [a] := by
  have hV := beWord5 a b c d e hb hc hd he
  have hp := pack_word (beWord [a, b, c, d, e])
  have h0 : beWord [a, b, c, d, e] / 2 ^ 32 % 256 = a := by rw [hV]; omega
  have h1 : beWord [a, b, c, d, e] / 2 ^ 24 % 256 = b := by rw [hV]; omega
  have h2 : beWord [a, b, c, d, e] / 2 ^ 16 % 256 = c := by rw [hV]; omega
  have h3 : beWord [a, b, c, d, e] / 2 ^ 8 % 256 = d := by rw [hV]; omega
  have h4 : beWord [a, b, c, d, e] % 256 = e := by rw [hV]; omega
  rw [h0, h1, h2, h3, h4] at hp
  obtain ⟨p0, p1, p2, p3, p4⟩ := hp
  rw [digits_eq]
  simp only [List.length_cons, List.length_nil, Nat.sub_self, List.replicate, List.append_nil]
  refine ⟨?_, ?_, ?_, ?_, ?_⟩
  · simp only [b32Pack, List.length_cons, List.length_nil, List.getD_cons_zero,
      List.getD_cons_succ]
    rw [p0, p1, p2, p3, p4]
  · simp only [b32Pack, List.take, List.length_cons, List.length_nil, List.getD_cons_zero,
      List.getD_cons_succ]
    rw [p0, p1, p2, p3]
  · simp only [b32Pack, List.take, List.length_cons, List.length_nil, List.getD_cons_zero,
      List.getD_cons_succ]
    rw [p0, p1, p2]
  · simp only [b32Pack, List.take, List.length_cons, List.length_nil, List.getD_cons_zero,
      List.getD_cons_succ]
    rw [p0, p1]
  · simp only [b32Pack, List.take, List.length_cons, List.length_nil, List.getD_cons_zero,
      List.getD_cons_succ]
    rw [p0]


theorem encCodes_nil (n : Nat) : b32EncCodes n [] = [] := by
  cases n <;> simp [b32EncCodes]

theorem decode_nil (fuel : Nat) : b32Decode fuel [] = some [] := by
  cases fuel <;> simp [b32Decode]

theorem keep_le (n : Nat) : b32Keep n ≤ 8 := by
  rcases n with _ | _ | _ | _ | _ | n <;> simp [b32Keep]

theorem keep_partial (n : Nat) (h1 : 1 ≤ n) (h4 : n ≤ 4) :
    2 ≤ b32Keep n ∧ b32Keep n < 8 ∧ b32Keep n ≠ 3 ∧ b32Keep n ≠ 6 := by
  interval_cases n <;> simp [b32Keep]

theorem groupCodes_length (g : List Nat) : (b32GroupCodes g).length = 8 := by
  have hk : b32Keep g.length ≤ 8 := keep_le _
  simp only [b32GroupCodes, List.length_append, List.length_map, List.length_take,
    digits_length, List.length_replicate]
  omega

theorem encCodes_length (n : Nat) : ∀ bs : List Nat, bs.length ≤ 5 * n →
    bs.length ≤ (b32EncCodes n bs).length := by
  induction n with
  | zero => intro bs h; simp at h; simp [h]
  | succ n ih =>
    intro bs h
    by_cases hb : bs = []
    · simp [hb]
    · simp only [b32EncCodes, hb, if_false, List.length_append, groupCodes_length]
      have := ih (bs.drop 5) (by simp only [List.length_drop]; omega)
      simp only [List.length_drop] at this
      omega

theorem decode_group (fuel : Nat) (g : List Nat) (h1 : 1 ≤ g.length) (h4 : g.length ≤ 4)
    (hb : ∀ b ∈ g, b < 256) : b32Decode (fuel + 1) (b32GroupCodes g) = some g := by
  have hne : b32GroupCodes g ≠ [] := by
    intro h
    have := groupCodes_length g
    rw [h] at this
    simp at this
  have hk := keep_partial g.length h1 h4
  have hlen : ((b32Digits g).take (b32Keep g.length)).length = b32Keep g.length := by
    rw [List.length_take, digits_length]
    omega
  have hr := readQuantum_padded ((b32Digits g).take (b32Keep g.length)) 8 0 [] rfl
    (by omega) (by omega) (by omega) (by omega)
    (fun v hv => digits_lt g v (List.mem_of_mem_take hv))
  simp only [Nat.zero_add, hlen, List.nil_append] at hr
  simp only [b32Decode, hne, if_false]
  unfold b32GroupCodes
  rw [hr]
  simp only [Option.some.injEq]
  match g, h1, h4, hb with
  | [a], _, _, hb =>
    have ha : a < 256 := hb a (by simp)
    exact (pack_group5 a 0 0 0 0 ha (by decide) (by decide) (by decide) (by decide)).2.2.2.2
  | [a, b], _, _, hb =>
    have ha : a < 256 := hb a (by simp)
    have hb' : b < 256 := hb b (by simp)
    exact (pack_group5 a b 0 0 0 ha hb' (by decide) (by decide) (by decide)).2.2.2.1
  | [a, b, c], _, _, hb =>
    have ha : a < 256 := hb a (by simp)
    have hb' : b < 256 := hb b (by simp)
    have hc : c < 256 := hb c (by simp)
    exact (pack_group5 a b c 0 0 ha hb' hc (by decide) (by decide)).2.2.1
  | [a, b, c, d], _, _, hb =>
    have ha : a < 256 := hb a (by simp)
    have hb' : b < 256 := hb b (by simp)
    have hc : c < 256 := hb c (by simp)
    have hd : d < 256 := hb d (by simp)
    exact (pack_group5 a b c d 0 ha hb' hc hd (by decide)).2.1

theorem decode_encCodes (n : Nat) : ∀ (fuel : Nat) (bs : List Nat), (∀ b ∈ bs, b < 256) →
    bs.length ≤ 5 * n → n ≤ fuel → b32Decode fuel (b32EncCodes n bs) = some bs := by
  induction n with
  | zero =>
    intro fuel bs _ h _
    have : bs = [] := by simpa using h
    subst this
    exact decode_nil fuel
  | succ n ih =>
    intro fuel bs hb hlen hfuel
    by_cases hnil : bs = []
    · subst hnil
      rw [encCodes_nil]
      exact decode_nil fuel
    · obtain ⟨f, rfl⟩ : ∃ f, fuel = f + 1 := ⟨fuel - 1, by omega⟩
      simp only [b32EncCodes, hnil, if_false]
      by_cases h5 : 5 ≤ bs.length
      · match bs, h5, hb, hlen with
        | a :: b :: c :: d :: e :: rest, _, hb, hlen =>
          have ha : a < 256 := hb a (by simp)
          have hb' : b < 256 := hb b (by simp)
          have hc : c < 256 := hb c (by simp)
          have hd : d < 256 := hb d (by simp)
          have he : e < 256 := hb e (by simp)
          have hrest : ∀ x ∈ rest, x < 256 := fun x hx => hb x (by simp [hx])
          have hg : b32GroupCodes [a, b, c, d, e] = (b32Digits [a, b, c, d, e]).map b32Code := by
            simp [b32GroupCodes, b32Keep, List.take_of_length_le, digits_length]
          have hr := readQuantum_digits (b32EncCodes n rest) (b32Digits [a, b, c, d, e]) 8 0 []
            (digits_length _).symm (digits_lt _)
          have hne : (b32Digits [a, b, c, d, e]).map b32Code ++ b32EncCodes n rest ≠ [] := by
            intro h
            have := congrArg List.length h
            simp [digits_length] at this
          have hrec := ih f rest hrest (by simp at hlen; omega) (by omega)
          simp only [List.take, List.drop, hg, b32Decode, hne, if_false, hr, hrec,
            List.nil_append]
          rw [(pack_group5 a b c d e ha hb' hc hd he).1]
          rfl
      · have ht : bs.take 5 = bs := List.take_of_length_le (by omega)
        have hd : bs.drop 5 = [] := List.drop_of_length_le (by omega)
        have h1 : 1 ≤ bs.length := by
          cases bs with
          | nil => exact absurd rfl hnil
          | cons _ _ => simp
        rw [ht, hd, encCodes_nil, List.append_nil]
        exact decode_group f bs h1 (by omega) hb

/-- Decoding the standard padded encoding of a byte sequence gives the
sequence back. -/
theorem base32_roundtrip (bs : List Nat) (hb : ∀ b ∈ bs, b < 256) :
    base32DecodeString (base32EncodeToString bs) = some bs := by
  simp only [base32DecodeString, base32EncodeToString, strip_encode]
  exact decode_encCodes bs.length _ bs hb (by omega) (encCodes_length bs.length bs (by omega))


theorem dynTrunc_eq (H : List Nat) (h20 : 20 ≤ H.length) (hb : ∀ b ∈ H, b < 256) :
    dynTrunc H = (H.getD (H.getD (H.length - 1) 0 % 16) 0 * 2 ^ 24
        + H.getD (H.getD (H.length - 1) 0 % 16 + 1) 0 * 2 ^ 16
        + H.getD (H.getD (H.length - 1) 0 % 16 + 2) 0 * 2 ^ 8
        + H.getD (H.getD (H.length - 1) 0 % 16 + 3) 0) % 2 ^ 31 := by
  have hlast : H.getLast?.getD 0 = H.getD (H.length - 1) 0 := by
    rw [List.getLast?_eq_getElem?, List.getD_eq_getElem?_getD]
  have hm : H.getD (H.length - 1) 0 &&& 0xF = H.getD (H.length - 1) 0 % 16 :=
    Nat.and_pow_two_sub_one_eq_mod _ 4
  have ho : H.getD (H.length - 1) 0 % 16 < 16 := Nat.mod_lt _ (by decide)
  have hget : ∀ i, i < H.length → H.getD i 0 < 256 := by
    intro i hi
    rw [List.getD_eq_getElem?_getD, List.getElem?_eq_getElem hi]
    exact hb _ (List.getElem_mem hi)
  simp only [dynTrunc, hlast, hm]
  rw [window_eq H _ (by omega)]
  exact be4_eq _ _ _ _ (hget _ (by omega)) (hget _ (by omega)) (hget _ (by omega))

theorem pow10Uint32_small (d : Nat) (hd : d ≤ 9) : pow10Uint32 (d : Int) = 10 ^ d := by
  interval_cases d <;> rfl

theorem itoa_length_le (n d : Nat) (hd : 0 < d) (h : n < 10 ^ d) : (itoa n).length ≤ d :=
  Nat.repr_length n d hd h

theorem padLoop_itoa (fuel d n : Nat) (hd : 0 < d) (hn : n < 10 ^ d) (hf : d < fuel) :
    padLoop fuel (itoa n) d
      = some (String.mk (List.replicate (d - (itoa n).length) '0') ++ itoa n) := by
  have hlen := itoa_length_le n d hd hn
  exact padLoop_eq (d - (itoa n).length) fuel _ d (by omega) (by omega)

/-- C1. For a 64-bit counter, `digits` from 1 to 9 and each of SHA1, SHA256,
SHA512, and for every secret that base-32 decodes to `key` (in particular the
standard padded encoding of `key`), `generateOTP` returns, with a nil error
and as soon as the loop budget exceeds `digits`, exactly the code the
specification describes: HMAC of the eight big-endian two's-complement counter
bytes under the decoded key, dynamic truncation at the offset given by the low
four bits of the last byte, top bit cleared, remainder modulo `10 ^ digits`,
decimal rendering left-padded with zeros to `digits` characters. -/
theorem generateOTP_spec (fuel : Nat) (key : List Nat) (counter : Int)
    (digits : Nat) (alg : HashAlg)
    (hc : -9223372036854775808 ≤ counter ∧ counter < 9223372036854775808)
    (hd : 1 ≤ digits ∧ digits ≤ 9) (hfuel : digits < fuel) :
    (∀ secret : String, base32DecodeString secret = some key →
      generateOTP fuel secret counter digits alg.name
        = .ret (specCode alg key counter digits) none)
    ∧ ((∀ b ∈ key, b < 256) →
      generateOTP fuel (base32EncodeToString key) counter digits alg.name
        = .ret (specCode alg key counter digits) none) := by
  have main : ∀ secret : String, base32DecodeString secret = some key →
      generateOTP fuel secret counter digits alg.name
        = .ret (specCode alg key counter digits) none := by
    intro secret hkey
    rw [generateOTP_eq fuel secret key counter digits alg.name alg hkey (selectHash_name alg)]
    have hp := pow10Uint32_small digits hd.2
    have hpos : 0 < 10 ^ digits := Nat.pow_pos (by decide)
    rw [hp, if_neg (by omega), counterBytes_eq counter hc]
    have hH := hmacSum_length alg key (specCounterBytes counter)
    rw [dynTrunc_eq _ (by rw [hH]; exact size_ge alg) (hmacSum_lt alg key _)]
    rw [padLoop_itoa fuel digits _ hd.1 (Nat.mod_lt _ hpos) hfuel]
    rfl
  exact ⟨main, fun hb => main _ (base32_roundtrip key hb)⟩

/-- Witness for C1: the RFC 4226 secret, counter 0, six digits, SHA1. -/
theorem generateOTP_spec_witness :
    base32DecodeString "GEZDGNBVGY3TQOJQGEZDGNBVGY3TQOJQ" = some (goBytes "12345678901234567890")
    ∧ generateOTP 7 "GEZDGNBVGY3TQOJQGEZDGNBVGY3TQOJQ" 0 6 "SHA1"
        = .ret (specCode .sha1 (goBytes "12345678901234567890") 0 6) none :=
  ⟨by decide,
   (generateOTP_spec 7 (goBytes "12345678901234567890") 0 6 .sha1
     (by decide) (by decide) (by decide)).1 "GEZDGNBVGY3TQOJQGEZDGNBVGY3TQOJQ" (by decide)⟩

/-! ## Length of the code -/

theorem padLoop_some_length (fuel : Nat) : ∀ (result : String) (digits : Int) (x : String),
    padLoop fuel result digits = some x → (x.length : Int) = digits := by
  induction fuel with
  | zero => intro _ _ _ h; simp [padLoop] at h
  | succ f ih =>
    intro result digits x h
    by_cases hl : (result.length : Int) = digits
    · simp only [padLoop, hl, ne_eq, not_true_eq_false, if_false, Option.some.injEq] at h
      rw [← h]; exact hl
    · simp only [padLoop, hl, ne_eq, not_false_eq_true, if_true] at h
      exact ih _ _ _ h

theorem padLoop_mono (fuel : Nat) : ∀ (fuel' : Nat) (result : String) (digits : Int) (x : String),
    padLoop fuel result digits = some x → fuel ≤ fuel' → padLoop fuel' result digits = some x := by
  induction fuel with
  | zero => intro _ _ _ _ h; simp [padLoop] at h
  | succ f ih =>
    intro fuel' result digits x h hle
    obtain ⟨g, rfl⟩ : ∃ g, fuel' = g + 1 := ⟨fuel' - 1, by omega⟩
    by_cases hl : (result.length : Int) = digits
    · simpa only [padLoop, hl, ne_eq, not_true_eq_false, if_false] using h
    · simp only [padLoop, hl, ne_eq, not_false_eq_true, if_true] at h ⊢
      exact ih g _ _ _ h (by omega)

theorem pow10Uint32_upto10 (d : Nat) (h1 : 1 ≤ d) (h10 : d ≤ 10) :
    pow10Uint32 (d : Int) ≠ 0 ∧ pow10Uint32 (d : Int) ≤ 10 ^ d := by
  interval_cases d <;> decide

/-- C2 for `generateOTP` alone, shared with the two `Generate` methods. -/
theorem generateOTP_length_aux (fuel : Nat) (secret : String) (key : List Nat) (counter : Int)
    (digits : Nat) (algo : String) (alg : HashAlg)
    (hkey : base32DecodeString secret = some key) (halg : selectHash algo = some alg)
    (h1 : 1 ≤ digits) (h10 : digits ≤ 10) (hfuel : digits < fuel) :
    ∃ code, generateOTP fuel secret counter digits algo = .ret code none
      ∧ code.length = digits := by
  rw [generateOTP_eq fuel secret key counter digits algo alg hkey halg]
  obtain ⟨hne, hle⟩ := pow10Uint32_upto10 digits h1 h10
  rw [if_neg hne]
  have hlt : dynTrunc (hmacSum alg key (beBytes 8 (uint64 counter))) % pow10Uint32 digits
      < 10 ^ digits := Nat.lt_of_lt_of_le (Nat.mod_lt _ (Nat.pos_of_ne_zero hne)) hle
  have hp := padLoop_itoa fuel digits _ h1 hlt hfuel
  rw [hp]
  refine ⟨_, rfl, ?_⟩
  have := padLoop_some_length _ _ _ _ hp
  exact_mod_cast this


/-! ## The two `Generate` methods in terms of `generateOTP` -/

theorem defaulted_Secret (totp : TOTP) : totp.defaulted.Secret = totp.Secret := by
  simp only [TOTP.defaulted]
  split_ifs <;> rfl

theorem defaulted_UnixTime (totp : TOTP) : totp.defaulted.UnixTime = totp.UnixTime := by
  simp only [TOTP.defaulted]
  split_ifs <;> rfl

theorem defaulted_Digits (totp : TOTP) :
    totp.defaulted.Digits = if totp.Digits = 0 then 6 else totp.Digits := by
  simp only [TOTP.defaulted]
  split_ifs <;> simp_all

theorem defaulted_Algorithm (totp : TOTP) :
    totp.defaulted.Algorithm = if totp.Algorithm = "" then "SHA256" else totp.Algorithm := by
  simp only [TOTP.defaulted]
  split_ifs <;> simp_all

theorem defaulted_Period (totp : TOTP) :
    totp.defaulted.Period = if totp.Period = 0 then 30 else totp.Period := by
  simp only [TOTP.defaulted]
  split_ifs <;> simp_all

theorem defaulted_Period_ne (totp : TOTP) : totp.defaulted.Period ≠ 0 := by
  rw [defaulted_Period]
  split_ifs with h
  · decide
  · exact h

theorem timestamp_defaulted (now : Int) (totp : TOTP) :
    totp.defaulted.timestamp now = totp.timestamp now := by
  simp only [TOTP.timestamp, defaulted_UnixTime]

theorem TOTP_Generate_snd (fuel : Nat) (now : Int) (totp : TOTP) (hs : totp.Secret ≠ "") :
    (TOTP.Generate fuel now totp).2
      = generateOTP fuel totp.Secret
          (wrapInt64 (Int.tdiv (totp.timestamp now) (if totp.Period = 0 then 30 else totp.Period)))
          (if totp.Digits = 0 then 6 else totp.Digits)
          (if totp.Algorithm = "" then "SHA256" else totp.Algorithm) := by
  have hp := defaulted_Period_ne totp
  simp only [TOTP.Generate, hs, if_false, hp, TOTP.counter, timestamp_defaulted,
    defaulted_Secret, defaulted_Digits, defaulted_Algorithm]
  rw [defaulted_Period]

theorem TOTP_Generate_fst (fuel : Nat) (now : Int) (totp : TOTP) (hs : totp.Secret ≠ "") :
    (TOTP.Generate fuel now totp).1 = totp.defaulted := by
  have hp := defaulted_Period_ne totp
  simp only [TOTP.Generate, hs, if_false, hp]

theorem HOTP_Generate_snd (fuel : Nat) (hotp : HOTP) (hs : hotp.Secret ≠ "") :
    (HOTP.Generate fuel hotp).2
      = generateOTP fuel hotp.Secret hotp.Counter
          (if hotp.Digits = 0 then 6 else hotp.Digits) "SHA1" := by
  simp only [HOTP.Generate, hs, if_false]
  split_ifs <;> rfl

theorem timestamp_of_ne (now : Int) (totp : TOTP) (h : totp.UnixTime ≠ 0) :
    totp.timestamp now = totp.UnixTime := by
  simp [TOTP.timestamp, h]

/-- C2. For `digits` from 1 to 10, a non-empty secret that decodes, any counter
and any supported algorithm, `generateOTP`, `HOTP.Generate` and `TOTP.Generate`
return (with a nil error, once the loop budget exceeds `digits`) a code of
exactly `digits` characters. -/
theorem code_length_eq_digits (fuel : Nat) (secret : String) (key : List Nat) (digits : Nat)
    (alg : HashAlg) (hs : secret ≠ "") (hkey : base32DecodeString secret = some key)
    (hd : 1 ≤ digits ∧ digits ≤ 10) (hfuel : digits < fuel) :
    (∀ (counter : Int) (algo : String), selectHash algo = some alg →
      ∃ code, generateOTP fuel secret counter digits algo = .ret code none
        ∧ code.length = digits)
    ∧ (∀ counter : Int,
      ∃ code, (HOTP.Generate fuel ⟨secret, digits, counter⟩).2 = .ret code none
        ∧ code.length = digits)
    ∧ (∀ (algo : String) (period unixTime now : Int), selectHash algo = some alg →
      ∃ code, (TOTP.Generate fuel now ⟨secret, digits, algo, period, unixTime⟩).2
          = .ret code none ∧ code.length = digits) := by
  have hd0 : (digits : Int) ≠ 0 := by omega
  refine ⟨?_, ?_, ?_⟩
  · intro counter algo halg
    exact generateOTP_length_aux fuel secret key counter digits algo alg hkey halg hd.1 hd.2 hfuel
  · intro counter
    rw [HOTP_Generate_snd fuel _ hs]
    simp only [hd0, if_false]
    exact generateOTP_length_aux fuel secret key counter digits "SHA1" .sha1 hkey (by decide)
      hd.1 hd.2 hfuel
  · intro algo period unixTime now halg
    have ha : algo ≠ "" := by
      intro h
      have hn : selectHash "" = none := by decide
      rw [h, hn] at halg
      exact Option.noConfusion halg
    rw [TOTP_Generate_snd fuel now _ hs]
    simp only [hd0, ha, if_false]
    exact generateOTP_length_aux fuel secret key _ digits algo alg hkey halg hd.1 hd.2 hfuel

/-- Witness for C2: the RFC 4226 secret with ten digits. -/
theorem code_length_eq_digits_witness :
    ∃ code, (HOTP.Generate 11 ⟨"GEZDGNBVGY3TQOJQGEZDGNBVGY3TQOJQ", (10 : Nat), 3⟩).2
        = .ret code none ∧ code.length = 10 :=
  (code_length_eq_digits 11 "GEZDGNBVGY3TQOJQGEZDGNBVGY3TQOJQ" (goBytes "12345678901234567890")
    10 .sha1 (by decide) (by decide) (by decide) (by decide)).2.1 3


/-! ## A larger loop budget does not change a result -/

theorem generateOTP_mono (fuel fuel' : Nat) (secret : String) (counter digits : Int)
    (algo : String) (code : String) (err : Option String)
    (h : generateOTP fuel secret counter digits algo = .ret code err) (hle : fuel ≤ fuel') :
    generateOTP fuel' secret counter digits algo = .ret code err := by
  cases hkey : base32DecodeString secret with
  | none =>
    simp only [generateOTP, hkey] at h ⊢
    exact h
  | some key =>
    cases halg : selectHash algo with
    | none =>
      simp only [generateOTP, hkey, halg] at h ⊢
      exact h
    | some alg =>
      rw [generateOTP_eq fuel secret key counter digits algo alg hkey halg] at h
      rw [generateOTP_eq fuel' secret key counter digits algo alg hkey halg]
      by_cases hz : pow10Uint32 digits = 0
      · rw [if_pos hz] at h
        exact Outcome.noConfusion h
      · rw [if_neg hz] at h ⊢
        cases hp : padLoop fuel
            (itoa (dynTrunc (hmacSum alg key (beBytes 8 (uint64 counter))) % pow10Uint32 digits))
            digits with
        | none =>
          rw [hp] at h
          exact Outcome.noConfusion h
        | some x =>
          rw [hp] at h
          rw [padLoop_mono fuel fuel' _ _ x hp hle]
          exact h

theorem HOTP_Generate_mono (fuel fuel' : Nat) (hotp : HOTP) (code : String)
    (err : Option String) (h : (HOTP.Generate fuel hotp).2 = .ret code err) (hle : fuel ≤ fuel') :
    (HOTP.Generate fuel' hotp).2 = .ret code err := by
  by_cases hs : hotp.Secret = ""
  · simp only [HOTP.Generate, hs, if_true] at h ⊢
    exact h
  · rw [HOTP_Generate_snd _ _ hs] at h ⊢
    exact generateOTP_mono fuel fuel' _ _ _ _ _ _ h hle

theorem Generate_now_irrelevant (fuel : Nat) (now now' : Int) (totp : TOTP)
    (ht : totp.UnixTime ≠ 0) : TOTP.Generate fuel now totp = TOTP.Generate fuel now' totp := by
  have e : ∀ n, totp.defaulted.timestamp n = totp.UnixTime := fun n => by
    rw [timestamp_defaulted, timestamp_of_ne n totp ht]
  simp only [TOTP.Generate, TOTP.counter, e]

/-- A result computed with clock value 0 and budget `fuel` stands for every
clock value and every larger budget when the timestamp is supplied. -/
theorem TOTP_Generate_mono (fuel fuel' : Nat) (now : Int) (totp : TOTP) (code : String)
    (err : Option String) (ht : totp.UnixTime ≠ 0)
    (h : (TOTP.Generate fuel 0 totp).2 = .ret code err) (hle : fuel ≤ fuel') :
    (TOTP.Generate fuel' now totp).2 = .ret code err := by
  rw [Generate_now_irrelevant fuel' now 0 totp ht]
  by_cases hs : totp.Secret = ""
  · simp only [TOTP.Generate, hs, if_true] at h ⊢
    exact h
  · rw [TOTP_Generate_snd _ _ _ hs] at h ⊢
    exact generateOTP_mono fuel fuel' _ _ _ _ _ _ h hle


/-! ## Test vectors -/

set_option maxRecDepth 100000

theorem rfcSecret20_eq :
    rfcSecret20 = "GEZDGNBVGY3TQOJQGEZDGNBVGY3TQOJQ" := by
  decide!

theorem rfcSecret32_eq :
    rfcSecret32 = "GEZDGNBVGY3TQOJQGEZDGNBVGY3TQOJQGEZDGNBVGY3TQOJQGEZA====" := by
  decide!

theorem rfcSecret64_eq :
    rfcSecret64 = ("GEZDGNBVGY3TQOJQGEZDGNBVGY3TQOJQGEZDGNBVGY3TQOJQGEZDGNBV" ++
      "GY3TQOJQGEZDGNBVGY3TQOJQGEZDGNBVGY3TQOJQGEZDGNA=") := by
  decide!

/-- C3. With the base-32 encoding of "12345678901234567890" as secret and six
digits, `HOTP.Generate` returns the RFC 4226 Appendix D codes for the counters
0 to 9, each with a nil error, for every loop budget above six. -/
theorem HOTP_rfc4226_vectors (fuel : Nat) (hfuel : 6 < fuel) :
    (HOTP.Generate fuel ⟨rfcSecret20, 6, 0⟩).2 = .ret "755224" none
    ∧ (HOTP.Generate fuel ⟨rfcSecret20, 6, 1⟩).2 = .ret "287082" none
    ∧ (HOTP.Generate fuel ⟨rfcSecret20, 6, 2⟩).2 = .ret "359152" none
    ∧ (HOTP.Generate fuel ⟨rfcSecret20, 6, 3⟩).2 = .ret "969429" none
    ∧ (HOTP.Generate fuel ⟨rfcSecret20, 6, 4⟩).2 = .ret "338314" none
    ∧ (HOTP.Generate fuel ⟨rfcSecret20, 6, 5⟩).2 = .ret "254676" none
    ∧ (HOTP.Generate fuel ⟨rfcSecret20, 6, 6⟩).2 = .ret "287922" none
    ∧ (HOTP.Generate fuel ⟨rfcSecret20, 6, 7⟩).2 = .ret "162583" none
    ∧ (HOTP.Generate fuel ⟨rfcSecret20, 6, 8⟩).2 = .ret "399871" none
    ∧ (HOTP.Generate fuel ⟨rfcSecret20, 6, 9⟩).2 = .ret "520489" none := by
  rw [rfcSecret20_eq]
  refine ⟨?_, ?_, ?_, ?_, ?_, ?_, ?_, ?_, ?_, ?_⟩ <;>
    exact HOTP_Generate_mono 7 fuel _ _ _ (by decide!) hfuel

/-- Witness for C3: the smallest sufficient loop budget. -/
theorem HOTP_rfc4226_vectors_witness :
    (HOTP.Generate 7 ⟨rfcSecret20, 6, 0⟩).2 = .ret "755224" none
    ∧ (HOTP.Generate 7 ⟨rfcSecret20, 6, 9⟩).2 = .ret "520489" none :=
  ⟨(HOTP_rfc4226_vectors 7 (by decide)).1,
   (HOTP_rfc4226_vectors 7 (by decide)).2.2.2.2.2.2.2.2.2⟩


/-- C4. For each RFC 6238 Appendix B vector (period 30, eight digits, the 20-,
32- or 64-byte ASCII key in base 32 for SHA1, SHA256, SHA512, and the six
listed times) `TOTP.Generate` returns the listed code with a nil error,
whatever the clock shows and for every loop budget above eight. -/
theorem TOTP_rfc6238_vectors (fuel : Nat) (now : Int) (hfuel : 8 < fuel) :
    (TOTP.Generate fuel now ⟨rfcSecret20, 8, "SHA1", 30, 59⟩).2 = .ret "94287082" none
    ∧ (TOTP.Generate fuel now ⟨rfcSecret32, 8, "SHA256", 30, 59⟩).2 = .ret "46119246" none
    ∧ (TOTP.Generate fuel now ⟨rfcSecret64, 8, "SHA512", 30, 59⟩).2 = .ret "90693936" none
    ∧ (TOTP.Generate fuel now ⟨rfcSecret20, 8, "SHA1", 30, 1111111109⟩).2 = .ret "07081804" none
    ∧ (TOTP.Generate fuel now ⟨rfcSecret32, 8, "SHA256", 30, 1111111109⟩).2 = .ret "68084774" none
    ∧ (TOTP.Generate fuel now ⟨rfcSecret64, 8, "SHA512", 30, 1111111109⟩).2 = .ret "25091201" none
    ∧ (TOTP.Generate fuel now ⟨rfcSecret20, 8, "SHA1", 30, 1111111111⟩).2 = .ret "14050471" none
    ∧ (TOTP.Generate fuel now ⟨rfcSecret32, 8, "SHA256", 30, 1111111111⟩).2 = .ret "67062674" none
    ∧ (TOTP.Generate fuel now ⟨rfcSecret64, 8, "SHA512", 30, 1111111111⟩).2 = .ret "99943326" none
    ∧ (TOTP.Generate fuel now ⟨rfcSecret20, 8, "SHA1", 30, 1234567890⟩).2 = .ret "89005924" none
    ∧ (TOTP.Generate fuel now ⟨rfcSecret32, 8, "SHA256", 30, 1234567890⟩).2 = .ret "91819424" none
    ∧ (TOTP.Generate fuel now ⟨rfcSecret64, 8, "SHA512", 30, 1234567890⟩).2 = .ret "93441116" none
    ∧ (TOTP.Generate fuel now ⟨rfcSecret20, 8, "SHA1", 30, 2000000000⟩).2 = .ret "69279037" none
    ∧ (TOTP.Generate fuel now ⟨rfcSecret32, 8, "SHA256", 30, 2000000000⟩).2 = .ret "90698825" none
    ∧ (TOTP.Generate fuel now ⟨rfcSecret64, 8, "SHA512", 30, 2000000000⟩).2 = .ret "38618901" none
    ∧ (TOTP.Generate fuel now ⟨rfcSecret20, 8, "SHA1", 30, 20000000000⟩).2 = .ret "65353130" none
    ∧ (TOTP.Generate fuel now ⟨rfcSecret32, 8, "SHA256", 30, 20000000000⟩).2 = .ret "77737706" none
    ∧ (TOTP.Generate fuel now ⟨rfcSecret64, 8, "SHA512", 30, 20000000000⟩).2 = .ret "47863826" none := by
  rw [rfcSecret20_eq, rfcSecret32_eq, rfcSecret64_eq]
  refine ⟨?_, ?_, ?_, ?_, ?_, ?_, ?_, ?_, ?_, ?_, ?_, ?_, ?_, ?_, ?_, ?_, ?_, ?_⟩ <;>
    exact TOTP_Generate_mono 9 fuel now _ _ _ (by decide) (by decide!) hfuel

/-- Witness for C4: the three SHA-1 codes the specification quotes. -/
theorem TOTP_rfc6238_vectors_witness :
    (TOTP.Generate 9 0 ⟨rfcSecret20, 8, "SHA1", 30, 59⟩).2 = .ret "94287082" none
    ∧ (TOTP.Generate 9 0 ⟨rfcSecret20, 8, "SHA1", 30, 1111111109⟩).2 = .ret "07081804" none
    ∧ (TOTP.Generate 9 0 ⟨rfcSecret20, 8, "SHA1", 30, 1234567890⟩).2 = .ret "89005924" none :=
  ⟨(TOTP_rfc6238_vectors 9 0 (by decide)).1,
   (TOTP_rfc6238_vectors 9 0 (by decide)).2.2.2.1,
   (TOTP_rfc6238_vectors 9 0 (by decide)).2.2.2.2.2.2.2.2.2.1⟩

/-! ## HOTP and TOTP as instances of `generateOTP` -/

/-- C5. For a non-empty secret, `HOTP.Generate` returns exactly what
`generateOTP` returns for the same secret, the counter unchanged, the
algorithm "SHA1", and the digits given, with 6 in place of 0. -/
theorem HOTP_Generate_eq_generateOTP (fuel : Nat) (hotp : HOTP) (hs : hotp.Secret ≠ "") :
    (HOTP.Generate fuel hotp).2
      = generateOTP fuel hotp.Secret hotp.Counter
          (if hotp.Digits = 0 then 6 else hotp.Digits) "SHA1" :=
  HOTP_Generate_snd fuel hotp hs

/-- Witness for C5: digits left at zero, counter 5. -/
theorem HOTP_Generate_eq_generateOTP_witness :
    (HOTP.Generate 7 ⟨"GEZDGNBVGY3TQOJQGEZDGNBVGY3TQOJQ", 0, 5⟩).2
      = generateOTP 7 "GEZDGNBVGY3TQOJQGEZDGNBVGY3TQOJQ" 5 6 "SHA1" :=
  HOTP_Generate_eq_generateOTP 7 ⟨"GEZDGNBVGY3TQOJQGEZDGNBVGY3TQOJQ", 0, 5⟩ (by decide)

theorem ite_default_idem {α : Type} [DecidableEq α] (x z d : α) (hd : d ≠ z) :
    (if (if x = z then d else x) = z then d else (if x = z then d else x))
      = if x = z then d else x := by
  split_ifs <;> simp_all

/-- C6. For a non-empty secret and a supplied (non-zero) time, `TOTP.Generate`
with `Digits = 0`, `Algorithm = ""` and `Period = 0` returns the same code and
error as with `Digits = 6`, `Algorithm = "SHA256"` and `Period = 30`; and each
field is defaulted on its own: whatever the three fields hold, the result is
that of the call in which every unset field holds its default and every set
field is kept. -/
theorem TOTP_defaults (fuel : Nat) (now now' : Int) (secret : String) (t : Int)
    (hs : secret ≠ "") (ht : t ≠ 0) :
    (TOTP.Generate fuel now ⟨secret, 0, "", 0, t⟩).2
      = (TOTP.Generate fuel now' ⟨secret, 6, "SHA256", 30, t⟩).2
    ∧ ∀ (digits : Int) (algo : String) (period : Int),
      (TOTP.Generate fuel now ⟨secret, digits, algo, period, t⟩).2
        = (TOTP.Generate fuel now' ⟨secret, if digits = 0 then 6 else digits,
            if algo = "" then "SHA256" else algo, if period = 0 then 30 else period, t⟩).2 := by
  have key : ∀ (digits : Int) (algo : String) (period : Int),
      (TOTP.Generate fuel now ⟨secret, digits, algo, period, t⟩).2
        = (TOTP.Generate fuel now' ⟨secret, if digits = 0 then 6 else digits,
            if algo = "" then "SHA256" else algo, if period = 0 then 30 else period, t⟩).2 := by
    intro digits algo period
    rw [TOTP_Generate_snd fuel now _ hs, TOTP_Generate_snd fuel now' _ hs]
    rw [timestamp_of_ne now _ ht, timestamp_of_ne now' _ ht]
    simp only []
    rw [ite_default_idem digits 0 6 (by decide), ite_default_idem algo "" "SHA256" (by decide),
      ite_default_idem period 0 30 (by decide)]
  exact ⟨key 0 "" 0, key⟩

/-- Witness for C6: the RFC 6238 SHA-256 secret at time 59. -/
theorem TOTP_defaults_witness :
    (TOTP.Generate 7 0 ⟨"GEZDGNBVGY3TQOJQGEZDGNBVGY3TQOJQGEZDGNBVGY3TQOJQGEZA====", 0, "", 0, 59⟩).2
      = (TOTP.Generate 7 1 ⟨"GEZDGNBVGY3TQOJQGEZDGNBVGY3TQOJQGEZDGNBVGY3TQOJQGEZA====",
          6, "SHA256", 30, 59⟩).2 :=
  (TOTP_defaults 7 0 1 "GEZDGNBVGY3TQOJQGEZDGNBVGY3TQOJQGEZDGNBVGY3TQOJQGEZA====" 59
    (by decide) (by decide)).1


/-! ## From time to counter -/

theorem wrapInt64_of_isInt64 (x : Int) (h : isInt64 x) : wrapInt64 x = x := by
  unfold isInt64 at h
  unfold wrapInt64
  omega

/-- Go's quotient of two `int64` values stays in `int64`, the one overflowing
case `MinInt64 / -1` apart. -/
theorem tdiv_isInt64 (t p : Int) (ht : isInt64 t) (hp : p ≠ 0)
    (hov : ¬ (t = -9223372036854775808 ∧ p = -1)) : isInt64 (Int.tdiv t p) := by
  unfold isInt64 at ht ⊢
  have habs : (Int.tdiv t p).natAbs = t.natAbs / p.natAbs := Int.natAbs_tdiv t p
  have hpn : 0 < p.natAbs := Int.natAbs_pos.mpr hp
  have hle : t.natAbs / p.natAbs ≤ t.natAbs := Nat.div_le_self _ _
  by_cases hmin : t = -9223372036854775808
  · subst hmin
    by_cases hp1 : p = 1
    · subst hp1; decide
    · have hp2 : 2 ≤ p.natAbs := by omega
      have : (-9223372036854775808 : Int).natAbs / p.natAbs
          ≤ (-9223372036854775808 : Int).natAbs / 2 := Nat.div_le_div_left hp2 (by decide)
      have h2 : (-9223372036854775808 : Int).natAbs / 2 = 4611686018427387904 := by decide
      omega
  · omega

theorem tdiv_eq_floor (t p : Int) (ht : 0 < t) (hp : 0 < p) :
    Int.tdiv t p = ⌊(t : ℚ) / (p : ℚ)⌋ := by
  obtain ⟨n, rfl⟩ := Int.eq_ofNat_of_zero_le (le_of_lt hp)
  rw [Int.tdiv_eq_ediv (le_of_lt ht) (le_of_lt hp)]
  have := Rat.floor_intCast_div_natCast t n
  rw [← this]
  simp

/-- C7 as stated fails: for `UnixTime = -1` and `Period = 30` the counter that
`TOTP.Generate` passes on is 0 (Go's division truncates toward zero), while
`floor(-1 / 30)` is -1; the call returns the code of counter 0, which is not
the code of counter -1. -/
theorem counter_not_floor :
    TOTP.counter 0 (TOTP.defaulted ⟨rfcSecret20, 6, "SHA1", 30, -1⟩)
      ≠ ⌊((-1 : Int) : ℚ) / ((30 : Int) : ℚ)⌋
    ∧ TOTP.counter 0 (TOTP.defaulted ⟨rfcSecret20, 6, "SHA1", 30, -1⟩) = 0
    ∧ ⌊((-1 : Int) : ℚ) / ((30 : Int) : ℚ)⌋ = -1
    ∧ (TOTP.Generate 7 0 ⟨rfcSecret20, 6, "SHA1", 30, -1⟩).2 = .ret "755224" none
    ∧ generateOTP 7 rfcSecret20 (-1) 6 "SHA1" = .ret "094451" none := by
  have hf : ⌊((-1 : Int) : ℚ) / ((30 : Int) : ℚ)⌋ = -1 := by
    rw [Int.floor_eq_iff]
    norm_num
  have hc : TOTP.counter 0 (TOTP.defaulted ⟨rfcSecret20, 6, "SHA1", 30, -1⟩) = 0 := by decide
  rw [hc, hf, rfcSecret20_eq]
  refine ⟨by decide, rfl, rfl, by decide!, by decide!⟩

/-- C7, amended. For a non-empty secret, a non-zero `UnixTime` `t` and a
non-zero `Period` `p` (both `int64`, the overflowing pair `MinInt64`, `-1`
apart), the counter that `TOTP.Generate` passes to `generateOTP` is the
quotient of `t` by `p` truncated toward zero; when `t` and `p` are both
positive this is `floor(t / p)`. -/
theorem TOTP_counter_truncates (fuel : Nat) (now : Int) (totp : TOTP)
    (hs : totp.Secret ≠ "") (ht : totp.UnixTime ≠ 0) (hp : totp.Period ≠ 0)
    (ht64 : isInt64 totp.UnixTime)
    (hov : ¬ (totp.UnixTime = -9223372036854775808 ∧ totp.Period = -1)) :
    totp.defaulted.counter now = Int.tdiv totp.UnixTime totp.Period
    ∧ (TOTP.Generate fuel now totp).2
        = generateOTP fuel totp.Secret (Int.tdiv totp.UnixTime totp.Period)
            totp.defaulted.Digits totp.defaulted.Algorithm
    ∧ (0 < totp.UnixTime → 0 < totp.Period →
        totp.defaulted.counter now = ⌊(totp.UnixTime : ℚ) / (totp.Period : ℚ)⌋) := by
  have hc : totp.defaulted.counter now = Int.tdiv totp.UnixTime totp.Period := by
    simp only [TOTP.counter, timestamp_defaulted, timestamp_of_ne now totp ht,
      defaulted_Period, hp, if_false]
    exact wrapInt64_of_isInt64 _ (tdiv_isInt64 _ _ ht64 hp hov)
  refine ⟨hc, ?_, ?_⟩
  · rw [← hc]
    have hpd := defaulted_Period_ne totp
    simp only [TOTP.Generate, hs, if_false, hpd, defaulted_Secret]
  · intro h1 h2
    rw [hc]
    exact tdiv_eq_floor _ _ h1 h2

/-- Witness for C7 (amended): time 59, period 30, counter 1. -/
theorem TOTP_counter_truncates_witness :
    TOTP.counter 0 (TOTP.defaulted ⟨"GEZDGNBVGY3TQOJQGEZDGNBVGY3TQOJQ", 8, "SHA1", 30, 59⟩)
      = Int.tdiv 59 30 :=
  (TOTP_counter_truncates 9 0 ⟨"GEZDGNBVGY3TQOJQGEZDGNBVGY3TQOJQ", 8, "SHA1", 30, 59⟩
    (by decide) (by decide) (by decide) (by decide) (by decide)).1


/-- C8. With the wall clock as the input `now`: for a non-empty secret,
`TOTP.Generate` divides `UnixTime` itself when it is non-zero, and then the
whole call (receiver and outcome) is the same for every clock value; when
`UnixTime` is 0 it divides `now`. -/
theorem TOTP_time_source (fuel : Nat) (now : Int) (totp : TOTP) (hs : totp.Secret ≠ "")
    (hnow : isInt64 now) :
    (TOTP.Generate fuel now totp).2
        = generateOTP fuel totp.Secret
            (wrapInt64 (Int.tdiv (if totp.UnixTime ≠ 0 then totp.UnixTime else now)
              totp.defaulted.Period))
            totp.defaulted.Digits totp.defaulted.Algorithm
    ∧ (totp.UnixTime ≠ 0 → totp.defaulted.timestamp now = totp.UnixTime
        ∧ ∀ now', TOTP.Generate fuel now' totp = TOTP.Generate fuel now totp)
    ∧ (totp.UnixTime = 0 → totp.defaulted.timestamp now = now) := by
  have hts : totp.defaulted.timestamp now = if totp.UnixTime ≠ 0 then totp.UnixTime else now := by
    simp only [TOTP.timestamp, defaulted_UnixTime, Int.sub_zero, wrapInt64_of_isInt64 now hnow]
  refine ⟨?_, ?_, ?_⟩
  · have hpd := defaulted_Period_ne totp
    simp only [TOTP.Generate, hs, if_false, hpd, defaulted_Secret, TOTP.counter, hts]
  · intro ht
    refine ⟨by rw [hts, if_pos ht], fun now' => Generate_now_irrelevant fuel now' now totp ht⟩
  · intro ht
    rw [hts]
    simp [ht]

/-- Witness for C8: a supplied time of 59 seconds, clock at 1700000000. -/
theorem TOTP_time_source_witness :
    (TOTP.Generate 9 1700000000 ⟨"GEZDGNBVGY3TQOJQGEZDGNBVGY3TQOJQ", 8, "SHA1", 30, 59⟩).2
      = generateOTP 9 "GEZDGNBVGY3TQOJQGEZDGNBVGY3TQOJQ"
          (wrapInt64 (Int.tdiv (if (59 : Int) ≠ 0 then 59 else 1700000000) 30)) 8 "SHA1" :=
  (TOTP_time_source 9 1700000000 ⟨"GEZDGNBVGY3TQOJQGEZDGNBVGY3TQOJQ", 8, "SHA1", 30, 59⟩
    (by decide) (by decide)).1

theorem tdiv_of_window (p k t : Int) (hp : 0 < p) (hk : 0 ≤ k)
    (h : k * p ≤ t ∧ t < (k + 1) * p) : Int.tdiv t p = k := by
  have ht : 0 ≤ t := le_trans (Int.mul_nonneg hk (le_of_lt hp)) h.1
  rw [Int.tdiv_eq_ediv ht (le_of_lt hp)]
  have h1 : k ≤ t / p := (Int.le_ediv_iff_mul_le hp).mpr h.1
  have h2 : t / p < k + 1 := (Int.ediv_lt_iff_lt_mul hp).mpr h.2
  omega

/-- C9 as stated fails for a window below zero: with period 30 and `k = -1`
the times -30 and -1 both lie in `[-30, 0)`, yet the counters are -1 and 0
and the codes differ. -/
theorem same_window_negative_differs :
    ((-1 : Int) * 30 ≤ -30 ∧ (-30 : Int) < (-1 + 1) * 30)
    ∧ ((-1 : Int) * 30 ≤ -1 ∧ (-1 : Int) < (-1 + 1) * 30)
    ∧ (TOTP.Generate 7 0 ⟨rfcSecret20, 6, "SHA1", 30, -30⟩).2 = .ret "094451" none
    ∧ (TOTP.Generate 7 0 ⟨rfcSecret20, 6, "SHA1", 30, -1⟩).2 = .ret "755224" none
    ∧ (TOTP.Generate 7 0 ⟨rfcSecret20, 6, "SHA1", 30, -30⟩).2
        ≠ (TOTP.Generate 7 0 ⟨rfcSecret20, 6, "SHA1", 30, -1⟩).2 := by
  rw [rfcSecret20_eq]
  have h1 : (TOTP.Generate 7 0 ⟨"GEZDGNBVGY3TQOJQGEZDGNBVGY3TQOJQ", 6, "SHA1", 30, -30⟩).2
      = .ret "094451" none := by
    decide!
  have h2 : (TOTP.Generate 7 0 ⟨"GEZDGNBVGY3TQOJQGEZDGNBVGY3TQOJQ", 6, "SHA1", 30, -1⟩).2
      = .ret "755224" none := by
    decide!
  refine ⟨by decide, by decide, h1, h2, ?_⟩
  rw [h1, h2]
  decide

/-- C9, amended. For a positive period `p`, a window index `k ≥ 0` and two
supplied (non-zero) times in `[k*p, (k+1)*p)`, `TOTP.Generate` with the same
secret, digits and algorithm returns the same code and error for both times,
whatever the clock shows at either call. -/
theorem TOTP_same_window (fuel : Nat) (now now' : Int) (secret : String) (digits : Int)
    (algo : String) (p k t1 t2 : Int) (hp : 0 < p) (hk : 0 ≤ k)
    (h1 : k * p ≤ t1 ∧ t1 < (k + 1) * p) (h2 : k * p ≤ t2 ∧ t2 < (k + 1) * p)
    (ht1 : t1 ≠ 0) (ht2 : t2 ≠ 0) :
    (TOTP.Generate fuel now ⟨secret, digits, algo, p, t1⟩).2
      = (TOTP.Generate fuel now' ⟨secret, digits, algo, p, t2⟩).2 := by
  by_cases hs : secret = ""
  · simp [TOTP.Generate, hs]
  · have hp0 : p ≠ 0 := by omega
    rw [TOTP_Generate_snd fuel now _ hs, TOTP_Generate_snd fuel now' _ hs,
      timestamp_of_ne now _ ht1, timestamp_of_ne now' _ ht2]
    simp only [hp0, if_false]
    rw [tdiv_of_window p k t1 hp hk h1, tdiv_of_window p k t2 hp hk h2]

/-- Witness for C9 (amended): times 30 and 59 in the window `[30, 60)`. -/
theorem TOTP_same_window_witness :
    (TOTP.Generate 9 0 ⟨"GEZDGNBVGY3TQOJQGEZDGNBVGY3TQOJQ", 8, "SHA1", 30, 30⟩).2
      = (TOTP.Generate 9 5 ⟨"GEZDGNBVGY3TQOJQGEZDGNBVGY3TQOJQ", 8, "SHA1", 30, 59⟩).2 :=
  TOTP_same_window 9 0 5 "GEZDGNBVGY3TQOJQGEZDGNBVGY3TQOJQ" 8 "SHA1" 30 1 30 59
    (by decide) (by decide) (by decide) (by decide) (by decide) (by decide)

/-! ## Missing secret -/

/-- C10. Whatever the other fields, the clock and the loop budget, a `HOTP`
or `TOTP` value with an empty `Secret` makes `Generate` return the empty code
with the error "no secret key provided", and leaves the receiver as it was:
no default has been written and `generateOTP` has not been entered. -/
theorem Generate_empty_secret (fuel : Nat) (now : Int) (digits counter period unixTime : Int)
    (algo : String) :
    HOTP.Generate fuel ⟨"", digits, counter⟩
      = (⟨"", digits, counter⟩, .ret "" (some "no secret key provided"))
    ∧ TOTP.Generate fuel now ⟨"", digits, algo, period, unixTime⟩
      = (⟨"", digits, algo, period, unixTime⟩, .ret "" (some "no secret key provided")) := by
  constructor
  · simp [HOTP.Generate]
  · simp [TOTP.Generate]


/-! ## Dynamic truncation stays in bounds -/

/-- C15. For every HMAC output `H` of 20, 32 or 64 bytes: the last byte exists,
the offset `H[len(H)-1] & 0x0F` is at most 15, the window
`H[offset .. offset+4)` lies inside `H` and has four bytes, and the value read
from it after clearing the top bit of its first byte is below `2 ^ 31`; and
`generateOTP` never stops with an index or slice-bounds fault. -/
theorem truncation_in_bounds (H : List Nat) (hb : ∀ b ∈ H, b < 256)
    (hlen : H.length = 20 ∨ H.length = 32 ∨ H.length = 64) :
    (∃ last, H.getLast? = some last ∧ last &&& 0xF ≤ 15
        ∧ (last &&& 0xF) + 4 ≤ H.length
        ∧ ((H.drop (last &&& 0xF)).take 4).length = 4)
    ∧ dynTrunc H < 2 ^ 31
    ∧ (∀ (fuel : Nat) (secret : String) (counter digits : Int) (algo : String),
        generateOTP fuel secret counter digits algo ≠ .fault "index out of range"
        ∧ generateOTP fuel secret counter digits algo ≠ .fault "slice bounds out of range") := by
  have h20 : 20 ≤ H.length := by omega
  refine ⟨?_, ?_, ?_⟩
  · cases hl : H.getLast? with
    | none =>
      rw [List.getLast?_eq_none_iff] at hl
      rw [hl] at h20
      simp at h20
    | some last =>
      have ho := and_0xF_lt last
      refine ⟨last, rfl, by omega, by omega, ?_⟩
      rw [List.length_take, List.length_drop]
      omega
  · rw [dynTrunc_eq H h20 hb]
    exact Nat.mod_lt _ (by decide)
  · intro fuel secret counter digits algo
    cases hkey : base32DecodeString secret with
    | none =>
      simp only [generateOTP, hkey]
      exact ⟨fun h => Outcome.noConfusion h, fun h => Outcome.noConfusion h⟩
    | some key =>
      cases halg : selectHash algo with
      | none =>
        simp only [generateOTP, hkey, halg]
        exact ⟨fun h => Outcome.noConfusion h, fun h => Outcome.noConfusion h⟩
      | some alg =>
        rw [generateOTP_eq fuel secret key counter digits algo alg hkey halg]
        by_cases hz : pow10Uint32 digits = 0
        · rw [if_pos hz]
          exact ⟨by decide, by decide⟩
        · rw [if_neg hz]
          cases padLoop fuel
              (itoa (dynTrunc (hmacSum alg key (beBytes 8 (uint64 counter))) % pow10Uint32 digits))
              digits with
          | none => exact ⟨fun h => Outcome.noConfusion h, fun h => Outcome.noConfusion h⟩
          | some x => exact ⟨fun h => Outcome.noConfusion h, fun h => Outcome.noConfusion h⟩

/-- Witness for C15: the HMAC-SHA1 output of the RFC 4226 key at counter 0. -/
theorem truncation_in_bounds_witness :
    dynTrunc (hmacSum .sha1 (goBytes "12345678901234567890") (beBytes 8 0)) < 2 ^ 31 :=
  (truncation_in_bounds (hmacSum .sha1 (goBytes "12345678901234567890") (beBytes 8 0))
    (hmacSum_lt _ _ _) (Or.inl (hmacSum_length _ _ _))).2.1


/-! ## The receiver after a call -/

theorem defaulted_idem (totp : TOTP) : totp.defaulted.defaulted = totp.defaulted := by
  have hd := defaulted_Digits totp
  have ha := defaulted_Algorithm totp
  have hp := defaulted_Period_ne totp
  have hd0 : totp.defaulted.Digits ≠ 0 := by
    rw [hd]; split_ifs with h
    · decide
    · exact h
  have ha0 : totp.defaulted.Algorithm ≠ "" := by
    rw [ha]; split_ifs with h
    · decide
    · exact h
  generalize totp.defaulted = t at hd0 ha0 hp
  simp only [TOTP.defaulted, hd0, ha0, hp, if_false]

theorem HOTP_Generate_fst (fuel : Nat) (hotp : HOTP) :
    (HOTP.Generate fuel hotp).1
      = ⟨hotp.Secret,
         if hotp.Secret = "" then hotp.Digits else if hotp.Digits = 0 then 6 else hotp.Digits,
         hotp.Counter⟩ := by
  cases hotp with
  | mk secret digits counter =>
    by_cases hs : secret = ""
    · simp [HOTP.Generate, hs]
    · simp only [HOTP.Generate, hs, if_false]
      split_ifs <;> rfl

/-- C13. Calling `Generate` a second time on the value the first call left
behind gives the same outcome (code and error) as the first call: for every
`HOTP` value, and for every `TOTP` value with a non-zero `UnixTime`, whatever
the clock shows at either call. -/
theorem Generate_twice (fuel : Nat) (now now' : Int) :
    (∀ hotp : HOTP,
      (HOTP.Generate fuel (HOTP.Generate fuel hotp).1).2 = (HOTP.Generate fuel hotp).2)
    ∧ (∀ totp : TOTP, totp.UnixTime ≠ 0 →
      (TOTP.Generate fuel now' (TOTP.Generate fuel now totp).1).2
        = (TOTP.Generate fuel now totp).2) := by
  constructor
  · intro hotp
    by_cases hs : hotp.Secret = ""
    · simp only [HOTP.Generate, hs, if_true]
    · have h1 : (HOTP.Generate fuel hotp).1.Secret ≠ "" := by
        rw [HOTP_Generate_fst]; exact hs
      rw [HOTP_Generate_snd fuel _ h1, HOTP_Generate_snd fuel hotp hs, HOTP_Generate_fst]
      simp only [hs, if_false]
      rw [ite_default_idem hotp.Digits 0 6 (by decide)]
  · intro totp ht
    by_cases hs : totp.Secret = ""
    · simp only [TOTP.Generate, hs, if_true]
    · have h1 : totp.defaulted.Secret ≠ "" := by rw [defaulted_Secret]; exact hs
      have ht1 : totp.defaulted.UnixTime ≠ 0 := by rw [defaulted_UnixTime]; exact ht
      rw [TOTP_Generate_fst fuel now totp hs, Generate_now_irrelevant fuel now' now _ ht1]
      have hp := defaulted_Period_ne totp
      simp only [TOTP.Generate, hs, h1, if_false, hp, defaulted_idem]

/-- Witness for C13: a `TOTP` value with every optional field unset. -/
theorem Generate_twice_witness :
    (TOTP.Generate 7 1
        (TOTP.Generate 7 0 ⟨"GEZDGNBVGY3TQOJQGEZDGNBVGY3TQOJQ", 0, "", 0, 59⟩).1).2
      = (TOTP.Generate 7 0 ⟨"GEZDGNBVGY3TQOJQGEZDGNBVGY3TQOJQ", 0, "", 0, 59⟩).2 :=
  (Generate_twice 7 0 1).2 ⟨"GEZDGNBVGY3TQOJQGEZDGNBVGY3TQOJQ", 0, "", 0, 59⟩ (by decide)

/-- C14 as stated fails: `Generate` writes the defaults into its receiver. A
`HOTP` value with `Digits = 0` holds `Digits = 6` after the call, and a `TOTP`
value with `Digits = 0`, `Algorithm = ""`, `Period = 0` holds 6, "SHA256", 30. -/
theorem Generate_writes_defaults :
    (HOTP.Generate 7 ⟨"GEZDGNBVGY3TQOJQGEZDGNBVGY3TQOJQ", 0, 1⟩).1
        = ⟨"GEZDGNBVGY3TQOJQGEZDGNBVGY3TQOJQ", 6, 1⟩
    ∧ (HOTP.Generate 7 ⟨"GEZDGNBVGY3TQOJQGEZDGNBVGY3TQOJQ", 0, 1⟩).1
        ≠ ⟨"GEZDGNBVGY3TQOJQGEZDGNBVGY3TQOJQ", 0, 1⟩
    ∧ (TOTP.Generate 7 0 ⟨"GEZDGNBVGY3TQOJQGEZDGNBVGY3TQOJQ", 0, "", 0, 59⟩).1
        = ⟨"GEZDGNBVGY3TQOJQGEZDGNBVGY3TQOJQ", 6, "SHA256", 30, 59⟩
    ∧ (TOTP.Generate 7 0 ⟨"GEZDGNBVGY3TQOJQGEZDGNBVGY3TQOJQ", 0, "", 0, 59⟩).1
        ≠ ⟨"GEZDGNBVGY3TQOJQGEZDGNBVGY3TQOJQ", 0, "", 0, 59⟩ := by
  have h1 : (HOTP.Generate 7 ⟨"GEZDGNBVGY3TQOJQGEZDGNBVGY3TQOJQ", 0, 1⟩).1
      = ⟨"GEZDGNBVGY3TQOJQGEZDGNBVGY3TQOJQ", 6, 1⟩ := by
    rw [HOTP_Generate_fst]; decide
  have h2 : (TOTP.Generate 7 0 ⟨"GEZDGNBVGY3TQOJQGEZDGNBVGY3TQOJQ", 0, "", 0, 59⟩).1
      = ⟨"GEZDGNBVGY3TQOJQGEZDGNBVGY3TQOJQ", 6, "SHA256", 30, 59⟩ := by
    rw [TOTP_Generate_fst _ _ _ (by decide)]; decide
  refine ⟨h1, ?_, h2, ?_⟩
  · rw [h1]; decide
  · rw [h2]; decide

/-- C14, amended. `Generate` changes its receiver only by writing defaults, and
only when `Secret` is non-empty: `Digits` becomes 6 if it was 0 (`HOTP` and
`TOTP`), `Algorithm` becomes "SHA256" if it was empty and `Period` becomes 30
if it was 0 (`TOTP`). `Secret`, `Counter` and `UnixTime` are never changed,
and a field that is set keeps its value. -/
theorem Generate_receiver (fuel : Nat) (now : Int) (hotp : HOTP) (totp : TOTP) :
    (HOTP.Generate fuel hotp).1
        = ⟨hotp.Secret,
           if hotp.Secret = "" then hotp.Digits else if hotp.Digits = 0 then 6 else hotp.Digits,
           hotp.Counter⟩
    ∧ (TOTP.Generate fuel now totp).1
        = ⟨totp.Secret,
           if totp.Secret = "" then totp.Digits else if totp.Digits = 0 then 6 else totp.Digits,
           if totp.Secret = "" then totp.Algorithm
             else if totp.Algorithm = "" then "SHA256" else totp.Algorithm,
           if totp.Secret = "" then totp.Period else if totp.Period = 0 then 30 else totp.Period,
           totp.UnixTime⟩ := by
  refine ⟨HOTP_Generate_fst fuel hotp, ?_⟩
  by_cases hs : totp.Secret = ""
  · simp only [TOTP.Generate, hs, if_true]
    cases totp
    simp_all
  · rw [TOTP_Generate_fst fuel now totp hs]
    simp only [hs, if_false]
    rw [← defaulted_Digits, ← defaulted_Algorithm, ← defaulted_Period, ← defaulted_Secret totp,
      ← defaulted_UnixTime totp]


/-! ## Errors -/

theorem generateOTP_bad_secret (fuel : Nat) (secret : String) (counter digits : Int)
    (algo : String) (h : base32DecodeString secret = none) :
    generateOTP fuel secret counter digits algo = .ret "" (some "bad secret key") := by
  simp only [generateOTP, h]

theorem generateOTP_bad_algo (fuel : Nat) (secret : String) (key : List Nat)
    (counter digits : Int) (algo : String) (hkey : base32DecodeString secret = some key)
    (h : selectHash algo = none) :
    generateOTP fuel secret counter digits algo = .ret "" (some invalidAlgorithm) := by
  simp only [generateOTP, hkey, h, invalidAlgorithm]

theorem generateOTP_select (fuel : Nat) (secret : String) (counter digits : Int)
    (a b : String) (h : selectHash a = selectHash b) :
    generateOTP fuel secret counter digits a = generateOTP fuel secret counter digits b := by
  simp only [generateOTP, h]

theorem Generate_bad_secret (fuel : Nat) (now : Int) (secret : String) (hs : secret ≠ "")
    (h : base32DecodeString secret = none) (digits counter period unixTime : Int)
    (algo : String) :
    (HOTP.Generate fuel ⟨secret, digits, counter⟩).2 = .ret "" (some "bad secret key")
    ∧ (TOTP.Generate fuel now ⟨secret, digits, algo, period, unixTime⟩).2
        = .ret "" (some "bad secret key") := by
  constructor
  · rw [HOTP_Generate_snd fuel _ hs]
    exact generateOTP_bad_secret _ _ _ _ _ h
  · rw [TOTP_Generate_snd fuel now _ hs]
    exact generateOTP_bad_secret _ _ _ _ _ h

theorem decodeMap_of_not_alphabet (b : Nat) (h : ¬ isAlphabetByte b) : b32DecodeMap b = 0xFF := by
  unfold isAlphabetByte at h
  unfold b32DecodeMap
  split_ifs with h1 h2
  · exact absurd (Or.inl h1) h
  · exact absurd (Or.inr h2) h
  · rfl

/-- Reading a quantum from input whose first byte outside the alphabet comes
before any padding: the read fails, or it stops in front of that byte. -/
theorem readQuantum_bad (bad : Nat) (rest : List Nat) (hbad : b32DecodeMap bad = 0xFF)
    (h61 : bad ≠ 61) (n : Nat) : ∀ (j : Nat) (dbuf pre : List Nat), (∀ b ∈ pre, b ≠ 61) →
    b32ReadQuantum n j dbuf (pre ++ bad :: rest) = none
    ∨ ∃ dbuf' pre', b32ReadQuantum n j dbuf (pre ++ bad :: rest)
          = some (dbuf', false, pre' ++ bad :: rest)
        ∧ (∀ b ∈ pre', b ≠ 61) ∧ pre'.length + n = pre.length := by
  induction n with
  | zero =>
    intro j dbuf pre hpre
    exact Or.inr ⟨dbuf, pre, by simp [b32ReadQuantum], hpre, rfl⟩
  | succ n ih =>
    intro j dbuf pre hpre
    cases pre with
    | nil =>
      left
      simp [b32ReadQuantum, h61, hbad]
    | cons p pre2 =>
      have hp : p ≠ 61 := hpre p (List.mem_cons_self _ _)
      have hpre2 : ∀ b ∈ pre2, b ≠ 61 := fun b hb => hpre b (List.mem_cons_of_mem _ hb)
      by_cases hv : b32DecodeMap p = 0xFF
      · left
        simp [b32ReadQuantum, hp, hv]
      · rcases ih (j + 1) (dbuf ++ [b32DecodeMap p]) pre2 hpre2 with h | ⟨d', p', h, h1, h2⟩
        · left
          simp only [List.cons_append, b32ReadQuantum, hp, false_and, if_false, hv]
          exact h
        · right
          refine ⟨d', p', ?_, h1, by simp only [List.length_cons]; omega⟩
          simp only [List.cons_append, b32ReadQuantum, hp, false_and, if_false, hv]
          exact h

theorem decode_bad (bad : Nat) (rest : List Nat) (hbad : b32DecodeMap bad = 0xFF)
    (h61 : bad ≠ 61) (fuel : Nat) : ∀ pre : List Nat, (∀ b ∈ pre, b ≠ 61) →
    pre.length < fuel → b32Decode fuel (pre ++ bad :: rest) = none := by
  induction fuel with
  | zero => intro pre _ h; omega
  | succ f ih =>
    intro pre hpre hlen
    have hne : pre ++ bad :: rest ≠ [] := by simp
    simp only [b32Decode, hne, if_false]
    rcases readQuantum_bad bad rest hbad h61 8 0 [] pre hpre with h | ⟨d', p', h, h1, h2⟩
    · rw [h]
    · rw [h]
      simp only []
      rw [ih p' h1 (by omega)]

/-- Reading a quantum from input without padding: the read fails, or it
takes exactly the bytes asked for. -/
theorem readQuantum_nopad (n : Nat) : ∀ (j : Nat) (dbuf src : List Nat), (∀ b ∈ src, b ≠ 61) →
    b32ReadQuantum n j dbuf src = none
    ∨ (n ≤ src.length ∧ ∃ dbuf', b32ReadQuantum n j dbuf src = some (dbuf', false, src.drop n)) := by
  induction n with
  | zero =>
    intro j dbuf src _
    exact Or.inr ⟨Nat.zero_le _, dbuf, by simp [b32ReadQuantum]⟩
  | succ n ih =>
    intro j dbuf src hsrc
    cases src with
    | nil => left; simp [b32ReadQuantum]
    | cons p src2 =>
      have hp : p ≠ 61 := hsrc p (List.mem_cons_self _ _)
      have hsrc2 : ∀ b ∈ src2, b ≠ 61 := fun b hb => hsrc b (List.mem_cons_of_mem _ hb)
      by_cases hv : b32DecodeMap p = 0xFF
      · left
        simp [b32ReadQuantum, hp, hv]
      · rcases ih (j + 1) (dbuf ++ [b32DecodeMap p]) src2 hsrc2 with h | ⟨hl, d', h⟩
        · left
          simp only [b32ReadQuantum, hp, false_and, if_false, hv]
          exact h
        · right
          refine ⟨by simp only [List.length_cons]; omega, d', ?_⟩
          simp only [b32ReadQuantum, hp, false_and, if_false, hv, List.drop_succ_cons]
          exact h

theorem decode_nopad (fuel : Nat) : ∀ src : List Nat, (∀ b ∈ src, b ≠ 61) →
    src.length % 8 ≠ 0 → src.length ≤ fuel → b32Decode fuel src = none := by
  induction fuel with
  | zero =>
    intro src _ h8 hlen
    have : src.length = 0 := by omega
    rw [this] at h8
    exact absurd rfl h8
  | succ f ih =>
    intro src hsrc h8 hlen
    have hne : src ≠ [] := by
      intro h
      rw [h] at h8
      exact h8 rfl
    simp only [b32Decode, hne, if_false]
    rcases readQuantum_nopad 8 0 [] src hsrc with h | ⟨hl, d', h⟩
    · rw [h]
    · rw [h]
      simp only []
      rw [ih (src.drop 8) (fun b hb => hsrc b (List.mem_of_mem_drop hb))
        (by rw [List.length_drop]; omega) (by rw [List.length_drop]; omega)]

theorem stripNewlines_mem (src : List Nat) (b : Nat) (h : b ∈ stripNewlines src) : b ∈ src := by
  unfold stripNewlines at h
  exact List.mem_of_mem_filter h


/-! ## What the decoder accepts -/

theorem decodeMap_of_alphabet (b : Nat) (h : isAlphabetByte b) : b32DecodeMap b ≠ 0xFF := by
  unfold isAlphabetByte at h
  unfold b32DecodeMap
  split_ifs with h1 h2
  · omega
  · omega
  · rcases h with h | h
    · exact absurd h h1
    · exact absurd h h2

theorem not_alphabet_pad : ¬ isAlphabetByte 61 := by decide

theorem mem_tail_list (j : Nat) : j ∈ [2, 4, 5, 7] ↔ (j = 2 ∨ j = 4 ∨ j = 5 ∨ j = 7) := by
  simp

theorem tailFrom_zero (src : List Nat) : tailFrom 0 src ↔ isPaddedTail src := by
  simp only [tailFrom, isPaddedTail, Nat.zero_le, true_and, Nat.add_zero, Nat.sub_zero]

theorem tailFrom_nil (j0 : Nat) (h : j0 ≤ 7) : ¬ tailFrom j0 [] := by
  rintro ⟨j, _, _, h8, _⟩
  simp only [List.length_nil, Nat.zero_add] at h8
  omega

theorem tailFrom_eight (src : List Nat) : ¬ tailFrom 8 src := by
  rintro ⟨j, hj, h8, _⟩
  rw [mem_tail_list] at hj
  omega

/-- A group that goes on with a padding character. -/
theorem tailFrom_pad (j0 : Nat) (src : List Nat) (h7 : j0 ≤ 7) :
    tailFrom j0 (61 :: src) ↔
      (2 ≤ j0 ∧ src.length < 8 ∧ ¬ src.length + j0 < 7
        ∧ (∀ b ∈ src.take (7 - j0), b = 61) ∧ ¬ (j0 = 1 ∨ j0 = 3 ∨ j0 = 6)) := by
  have hsplit : (61 :: src).take (8 - j0) = 61 :: src.take (7 - j0) := by
    have : 8 - j0 = (7 - j0) + 1 := by omega
    rw [this, List.take_succ_cons]
  constructor
  · rintro ⟨j, hj, hle, h8, hlen, halpha, hpad⟩
    rw [mem_tail_list] at hj
    have hjj : j = j0 := by
      by_contra hne
      obtain ⟨k, hk⟩ : ∃ k, j - j0 = k + 1 := ⟨j - j0 - 1, by omega⟩
      rw [hk, List.take_succ_cons] at halpha
      exact not_alphabet_pad (halpha 61 (List.mem_cons_self _ _))
    subst hjj
    simp only [List.length_cons] at h8 hlen
    rw [Nat.sub_self, List.drop_zero, hsplit] at hpad
    refine ⟨by omega, by omega, by omega, fun b hb => hpad b (List.mem_cons_of_mem _ hb),
      by omega⟩
  · rintro ⟨h2, hlt, hge, hpad, hno⟩
    refine ⟨j0, by rw [mem_tail_list]; omega, Nat.le_refl _, ?_, ?_, ?_, ?_⟩
    · simp only [List.length_cons]; omega
    · simp only [List.length_cons]; omega
    · rw [Nat.sub_self, List.take_zero]
      intro b hb
      exact absurd hb (List.not_mem_nil b)
    · rw [Nat.sub_self, List.drop_zero, hsplit]
      intro b hb
      rcases List.mem_cons.mp hb with h | h
      · exact h
      · exact hpad b h

/-- A group that goes on with an alphabet character. -/
theorem tailFrom_alphabet (j0 c : Nat) (src : List Nat) (h7 : j0 ≤ 7)
    (hc : isAlphabetByte c) : tailFrom j0 (c :: src) ↔ tailFrom (j0 + 1) src := by
  have hc61 : c ≠ 61 := fun h => not_alphabet_pad (h ▸ hc)
  have hsplit : (c :: src).take (8 - j0) = c :: src.take (8 - (j0 + 1)) := by
    have : 8 - j0 = (8 - (j0 + 1)) + 1 := by omega
    rw [this, List.take_succ_cons]
  constructor
  · rintro ⟨j, hj, hle, h8, hlen, halpha, hpad⟩
    have hjne : j ≠ j0 := by
      intro h
      subst h
      rw [Nat.sub_self, List.drop_zero, hsplit] at hpad
      exact hc61 (hpad c (List.mem_cons_self _ _))
    obtain ⟨k, hk⟩ : ∃ k, j - j0 = k + 1 := ⟨j - j0 - 1, by omega⟩
    have hk' : j - (j0 + 1) = k := by omega
    simp only [List.length_cons] at h8 hlen
    refine ⟨j, hj, by omega, by omega, by omega, ?_, ?_⟩
    · rw [hk']
      rw [hk, List.take_succ_cons] at halpha
      exact fun b hb => halpha b (List.mem_cons_of_mem _ hb)
    · rw [hk']
      rw [hk, hsplit, List.drop_succ_cons] at hpad
      exact hpad
  · rintro ⟨j, hj, hle, h8, hlen, halpha, hpad⟩
    obtain ⟨k, hk⟩ : ∃ k, j - j0 = k + 1 := ⟨j - j0 - 1, by omega⟩
    have hk' : j - (j0 + 1) = k := by omega
    rw [hk'] at halpha hpad
    refine ⟨j, hj, by omega, ?_, ?_, ?_, ?_⟩
    · simp only [List.length_cons]; omega
    · simp only [List.length_cons]; omega
    · rw [hk, List.take_succ_cons]
      intro b hb
      rcases List.mem_cons.mp hb with h | h
      · exact h ▸ hc
      · exact halpha b h
    · rw [hk, hsplit, List.drop_succ_cons]
      exact hpad

/-- A group that goes on with a byte that is neither padding nor alphabet. -/
theorem tailFrom_other (j0 c : Nat) (src : List Nat) (h7 : j0 ≤ 7) (hc : ¬ isAlphabetByte c)
    (hc61 : c ≠ 61) : ¬ tailFrom j0 (c :: src) := by
  rintro ⟨j, hj, hle, h8, hlen, halpha, hpad⟩
  by_cases hjj : j = j0
  · subst hjj
    have : 8 - j = (7 - j) + 1 := by omega
    rw [Nat.sub_self, List.drop_zero, this, List.take_succ_cons] at hpad
    exact hc61 (hpad c (List.mem_cons_self _ _))
  · obtain ⟨k, hk⟩ : ∃ k, j - j0 = k + 1 := ⟨j - j0 - 1, by omega⟩
    rw [hk, List.take_succ_cons] at halpha
    exact hc (halpha c (List.mem_cons_self _ _))


/-- What reading a group does, said without the loop: it fails when the input
is neither a full group of alphabet characters nor a padded final group; it
takes a full group; or it ends on a padded final group. -/
theorem readQuantum_cases (n : Nat) : ∀ (j : Nat) (dbuf src : List Nat), n + j = 8 →
    (b32ReadQuantum n j dbuf src = none
        ∧ ¬ (n ≤ src.length ∧ ∀ b ∈ src.take n, isAlphabetByte b) ∧ ¬ tailFrom j src)
    ∨ (∃ d, b32ReadQuantum n j dbuf src = some (d, false, src.drop n)
        ∧ (n ≤ src.length ∧ ∀ b ∈ src.take n, isAlphabetByte b) ∧ ¬ tailFrom j src)
    ∨ (∃ d r, b32ReadQuantum n j dbuf src = some (d, true, r) ∧ tailFrom j src) := by
  induction n with
  | zero =>
    intro j dbuf src hj
    have : j = 8 := by omega
    subst this
    right; left
    refine ⟨dbuf, by simp [b32ReadQuantum], ⟨Nat.zero_le _, ?_⟩, tailFrom_eight src⟩
    intro b hb
    simp at hb
  | succ n ih =>
    intro j dbuf src hj
    have h7 : j ≤ 7 := by omega
    cases src with
    | nil =>
      left
      refine ⟨by simp [b32ReadQuantum], ?_, tailFrom_nil j h7⟩
      rintro ⟨h, _⟩
      simp at h
    | cons c src =>
      by_cases hc61 : c = 61
      · subst hc61
        have hng : ¬ (n + 1 ≤ (61 :: src).length ∧ ∀ b ∈ (61 :: src).take (n + 1),
            isAlphabetByte b) := by
          rintro ⟨_, h⟩
          exact not_alphabet_pad (h 61 (by simp))
        have hany : ((src.take (8 - 1 - j)).any (fun b => b != 61) = true)
            ↔ ¬ (∀ b ∈ src.take (7 - j), b = 61) := by
          have e : 8 - 1 - j = 7 - j := by omega
          rw [e, List.any_eq_true]
          constructor
          · rintro ⟨x, hx, hne⟩ hall
            simp [hall x hx] at hne
          · intro h
            by_contra hno
            apply h
            intro b hb
            by_contra hb61
            exact hno ⟨b, hb, by simp [hb61]⟩
        have ht := tailFrom_pad j src h7
        by_cases hP : 2 ≤ j ∧ src.length < 8
        · by_cases h1 : src.length + j < 8 - 1
          · left
            refine ⟨by simp [b32ReadQuantum, hP, h1], hng, ?_⟩
            rw [ht]
            rintro ⟨_, _, h, _⟩
            omega
          · by_cases h2 : ∀ b ∈ src.take (7 - j), b = 61
            · by_cases h3 : j = 1 ∨ j = 3 ∨ j = 6
              · left
                have hany' : ((src.take (8 - 1 - j)).any (fun b => b != 61)) = false := by
                  rw [Bool.eq_false_iff]
                  intro h
                  exact (hany.mp h) h2
                refine ⟨by simp only [b32ReadQuantum, hP, and_self, if_true, h1, if_false,
                  hany', h3, Bool.false_eq_true], hng, ?_⟩
                rw [ht]
                rintro ⟨_, _, _, _, h⟩
                exact h h3
              · right; right
                have hany' : ((src.take (8 - 1 - j)).any (fun b => b != 61)) = false := by
                  rw [Bool.eq_false_iff]
                  intro h
                  exact (hany.mp h) h2
                refine ⟨dbuf, src, by simp only [b32ReadQuantum, hP, and_self, if_true, h1,
                  if_false, hany', h3, Bool.false_eq_true], ?_⟩
                rw [ht]
                exact ⟨hP.1, hP.2, by omega, h2, h3⟩
            · left
              have hany' : ((src.take (8 - 1 - j)).any (fun b => b != 61)) = true :=
                hany.mpr h2
              refine ⟨by simp only [b32ReadQuantum, hP, and_self, if_true, h1, if_false,
                hany'], hng, ?_⟩
              rw [ht]
              rintro ⟨_, _, _, h, _⟩
              exact h2 h
        · left
          have hv : b32DecodeMap 61 = 0xFF := by decide
          refine ⟨by simp only [b32ReadQuantum, hP, and_false, if_false, hv, if_true], hng, ?_⟩
          rw [ht]
          rintro ⟨h, h', _⟩
          exact hP ⟨h, h'⟩
      · by_cases hc : isAlphabetByte c
        · have hv := decodeMap_of_alphabet c hc
          have hstep : b32ReadQuantum (n + 1) j dbuf (c :: src)
              = b32ReadQuantum n (j + 1) (dbuf ++ [b32DecodeMap c]) src := by
            simp only [b32ReadQuantum, hc61, false_and, if_false, hv]
          have hg : (n + 1 ≤ (c :: src).length ∧ ∀ b ∈ (c :: src).take (n + 1),
              isAlphabetByte b) ↔ (n ≤ src.length ∧ ∀ b ∈ src.take n, isAlphabetByte b) := by
            simp only [List.length_cons, List.take_succ_cons, List.mem_cons, forall_eq_or_imp,
              hc, true_and]
            constructor
            · rintro ⟨h, h'⟩; exact ⟨by omega, h'⟩
            · rintro ⟨h, h'⟩; exact ⟨by omega, h'⟩
          have ht := tailFrom_alphabet j c src h7 hc
          rw [hstep, hg, ht, List.drop_succ_cons]
          exact ih (j + 1) (dbuf ++ [b32DecodeMap c]) src (by omega)
        · left
          have hv := decodeMap_of_not_alphabet c hc
          refine ⟨by simp only [b32ReadQuantum, hc61, false_and, if_false, hv, if_true], ?_,
            tailFrom_other j c src h7 hc hc61⟩
          rintro ⟨_, h⟩
          exact hc (h c (by simp))

/-- The decoder succeeds exactly on well-formed input. -/
theorem decode_none_iff (n : Nat) : ∀ src : List Nat, src.length ≤ n →
    (b32Decode n src = none ↔ ¬ b32WellFormed n src) := by
  induction n with
  | zero =>
    intro src h
    have : src = [] := by simpa using h
    subst this
    simp [b32Decode, b32WellFormed]
  | succ n ih =>
    intro src h
    by_cases hnil : src = []
    · subst hnil
      simp [b32Decode, b32WellFormed]
    · simp only [b32Decode, b32WellFormed, hnil, if_false, false_or]
      rcases readQuantum_cases 8 0 [] src rfl with ⟨hr, hg, ht⟩ | ⟨d, hr, hg, ht⟩ | ⟨d, r, hr, ht⟩
      · rw [hr]
        rw [tailFrom_zero] at ht
        simp only [true_iff]
        rintro (h | ⟨h1, h2, _⟩)
        · exact ht h
        · exact hg ⟨h1, h2⟩
      · rw [hr]
        rw [tailFrom_zero] at ht
        have hrec := ih (src.drop 8) (by rw [List.length_drop]; omega)
        cases hdec : b32Decode n (src.drop 8) with
        | none =>
          simp only [hdec, true_iff]
          rintro (h | ⟨_, _, h3⟩)
          · exact ht h
          · exact (hrec.mp hdec) h3
        | some out =>
          simp only [hdec, reduceCtorEq, false_iff, not_not]
          right
          refine ⟨hg.1, hg.2, ?_⟩
          by_contra hwf
          rw [hrec.mpr hwf] at hdec
          exact Option.noConfusion hdec
      · rw [hr]
        rw [tailFrom_zero] at ht
        simp only [reduceCtorEq, false_iff, not_not]
        exact Or.inl ht

/-- The decoder rejects a string exactly when it is not well formed. -/
theorem decodeString_none_iff (s : String) :
    base32DecodeString s = none ↔ ¬ wellFormedSecret s := by
  simp only [base32DecodeString, wellFormedSecret]
  exact decode_none_iff _ _ (Nat.le_refl _)


theorem tailFrom_prefix (pre : List Nat) : ∀ (j0 : Nat) (src : List Nat),
    (∀ b ∈ pre, isAlphabetByte b) → j0 + pre.length ≤ 8 →
    (tailFrom j0 (pre ++ src) ↔ tailFrom (j0 + pre.length) src) := by
  induction pre with
  | nil => intro j0 src _ _; simp
  | cons c pre ih =>
    intro j0 src ha hlen
    simp only [List.length_cons] at hlen
    have hc : isAlphabetByte c := ha c (by simp)
    have hpre : ∀ b ∈ pre, isAlphabetByte b := fun b hb => ha b (by simp [hb])
    rw [List.cons_append, tailFrom_alphabet j0 c (pre ++ src) (by omega) hc,
      ih (j0 + 1) src hpre (by omega)]
    simp only [List.length_cons]
    have e : j0 + 1 + pre.length = j0 + (pre.length + 1) := by omega
    rw [e]

/-- A full group of alphabet characters is not a padded final group. -/
theorem group_not_tail (src : List Nat) (h8 : 8 ≤ src.length)
    (ha : ∀ b ∈ src.take 8, isAlphabetByte b) : ¬ isPaddedTail src := by
  rw [← tailFrom_zero, ← List.take_append_drop 8 src,
    tailFrom_prefix (src.take 8) 0 (src.drop 8) ha (by simp)]
  have e : 0 + (src.take 8).length = 8 := by simp [List.length_take, h8]
  rw [e]
  exact tailFrom_eight _

theorem wellFormed_group (n : Nat) (src : List Nat) (h8 : 8 ≤ src.length)
    (ha : ∀ b ∈ src.take 8, isAlphabetByte b) :
    b32WellFormed (n + 1) src ↔ b32WellFormed n (src.drop 8) := by
  have hne : src ≠ [] := by
    intro h
    simp [h] at h8
  simp only [b32WellFormed, hne, false_or]
  constructor
  · rintro (h | ⟨_, _, h⟩)
    · exact absurd h (group_not_tail src h8 ha)
    · exact h
  · intro h
    exact Or.inr ⟨h8, ha, h⟩

/-- The condition under which a group that holds `j` alphabet characters and
then a first `=`, followed by `rest`, is accepted as the padded final group. -/
theorem wellFormed_pad (n : Nat) (pre rest : List Nat) (ha : ∀ b ∈ pre, isAlphabetByte b)
    (hlt : pre.length < 8) :
    b32WellFormed (n + 1) (pre ++ 61 :: rest)
      ↔ (2 ≤ pre.length ∧ rest.length < 8 ∧ ¬ rest.length + pre.length < 7
          ∧ (∀ b ∈ rest.take (7 - pre.length), b = 61)
          ∧ ¬ (pre.length = 1 ∨ pre.length = 3 ∨ pre.length = 6)) := by
  have hne : pre ++ 61 :: rest ≠ [] := by simp
  have hmem : 61 ∈ (pre ++ 61 :: rest).take 8 := by
    rw [List.take_append_eq_append_take]
    apply List.mem_append_right
    have : 8 - pre.length = (8 - pre.length - 1) + 1 := by omega
    rw [this, List.take_succ_cons]
    simp
  have hng : ¬ (8 ≤ (pre ++ 61 :: rest).length
      ∧ (∀ b ∈ (pre ++ 61 :: rest).take 8, isAlphabetByte b)
      ∧ b32WellFormed n ((pre ++ 61 :: rest).drop 8)) := by
    rintro ⟨_, h, _⟩
    exact not_alphabet_pad (h 61 hmem)
  simp only [b32WellFormed, hne, hng, false_or, or_false]
  rw [← tailFrom_zero, tailFrom_prefix pre 0 (61 :: rest) ha (by omega), Nat.zero_add,
    tailFrom_pad pre.length rest (by omega)]

theorem wellFormed_first_pad (n : Nat) : ∀ (pre rest : List Nat),
    (∀ b ∈ pre, isAlphabetByte b) → (pre ++ 61 :: rest).length ≤ n →
    (b32WellFormed n (pre ++ 61 :: rest)
      ↔ (2 ≤ pre.length % 8 ∧ rest.length < 8 ∧ ¬ rest.length + pre.length % 8 < 7
          ∧ (∀ b ∈ rest.take (7 - pre.length % 8), b = 61)
          ∧ ¬ (pre.length % 8 = 1 ∨ pre.length % 8 = 3 ∨ pre.length % 8 = 6))) := by
  induction n with
  | zero =>
    intro pre rest _ h
    simp at h
  | succ n ih =>
    intro pre rest ha hlen
    by_cases hlt : pre.length < 8
    · rw [wellFormed_pad n pre rest ha hlt, Nat.mod_eq_of_lt hlt]
    · have h8 : 8 ≤ pre.length := by omega
      have htake : (pre ++ 61 :: rest).take 8 = pre.take 8 := by
        rw [List.take_append_of_le_length h8]
      have hdrop : (pre ++ 61 :: rest).drop 8 = pre.drop 8 ++ 61 :: rest := by
        rw [List.drop_append_of_le_length h8]
      have hlen8 : 8 ≤ (pre ++ 61 :: rest).length := by
        simp only [List.length_append]
        omega
      rw [wellFormed_group n _ hlen8
        (by rw [htake]; exact fun b hb => ha b (List.mem_of_mem_take hb)), hdrop,
        ih (pre.drop 8) rest (fun b hb => ha b (List.mem_of_mem_drop hb))
          (by simp only [List.length_append, List.length_drop, List.length_cons] at hlen ⊢
              omega)]
      have e : (pre.drop 8).length % 8 = pre.length % 8 := by
        rw [List.length_drop]
        omega
      rw [e]


/-- C11 as stated fails, in both of its clauses. The decoder drops CR and LF
before decoding, so a secret holding a line feed (a character outside `A`-`Z`,
`2`-`7`, `=`) between two valid halves is accepted, and `HOTP.Generate`
returns the code of the joined secret. And a wrong padding length is not
always refused: "GEZDGNBVGE" needs six `=` to fill its last group, yet with
seven the secret decodes to the same six bytes and `HOTP.Generate` returns
their code. -/
theorem newline_secret_accepted :
    10 ∈ goBytes "GEZDGNBVGY3TQOJQ\nGEZDGNBVGY3TQOJQ"
    ∧ ¬ isAlphabetByte 10 ∧ (10 : Nat) ≠ 61
    ∧ (HOTP.Generate 7 ⟨"GEZDGNBVGY3TQOJQ\nGEZDGNBVGY3TQOJQ", 6, 0⟩).2
        = .ret "755224" none
    ∧ (HOTP.Generate 7 ⟨"GEZDGNBVGY3TQOJQ\nGEZDGNBVGY3TQOJQ", 6, 0⟩).2
        ≠ .ret "" (some "bad secret key")
    ∧ base32DecodeString "GEZDGNBVGE======" = some [49, 50, 51, 52, 53, 49]
    ∧ base32DecodeString "GEZDGNBVGE=======" = some [49, 50, 51, 52, 53, 49]
    ∧ (HOTP.Generate 7 ⟨"GEZDGNBVGE=======", 6, 0⟩).2 = .ret "973731" none
    ∧ (HOTP.Generate 7 ⟨"GEZDGNBVGE=======", 6, 0⟩).2
        ≠ .ret "" (some "bad secret key") := by
  have h : (HOTP.Generate 7 ⟨"GEZDGNBVGY3TQOJQ\nGEZDGNBVGY3TQOJQ", 6, 0⟩).2
      = .ret "755224" none := by decide!
  have hp : (HOTP.Generate 7 ⟨"GEZDGNBVGE=======", 6, 0⟩).2 = .ret "973731" none := by
    decide!
  refine ⟨by decide, by decide, by decide, h, ?_, by decide!, by decide!, hp, ?_⟩
  · rw [h]
    decide
  · rw [hp]
    decide

/-- C11, amended. For every non-empty secret that is not well formed,
`HOTP.Generate` and `TOTP.Generate` return the empty code with the error
"bad secret key", whatever the other fields, the clock and the loop budget.
Well-formedness is judged on the bytes left once CR and LF are dropped: they
are groups of eight characters of `A`-`Z`, `2`-`7`, ended by nothing or by one
padded group of 2, 4, 5 or 7 such characters followed by `=` through its
eighth byte, with fewer than eight bytes after its first `=`. These are
exactly the secrets the decoder accepts (second part). In particular a secret
is not well formed when a byte other than `A`-`Z`, `2`-`7`, `=`, CR, LF occurs
in it before any `=` (third part), or when it holds no `=` and the number of
its bytes other than CR and LF is not a multiple of 8 (fourth part). When the
first `=` comes after alphabet characters only, `j` of them in its own group,
the secret is well formed exactly when `j` is 2, 4, 5 or 7, the next `7 - j`
bytes exist and are all `=`, and fewer than eight bytes follow that first `=`
(fifth part): padding that is too short, or that starts after 0, 1, 3 or 6
characters of a group, is refused. -/
theorem bad_secret_rejected (fuel : Nat) (now : Int) (secret : String) (hs : secret ≠ "") :
    (¬ wellFormedSecret secret →
      ∀ (digits counter period unixTime : Int) (algo : String),
        (HOTP.Generate fuel ⟨secret, digits, counter⟩).2 = .ret "" (some "bad secret key")
        ∧ (TOTP.Generate fuel now ⟨secret, digits, algo, period, unixTime⟩).2
            = .ret "" (some "bad secret key"))
    ∧ (base32DecodeString secret = none ↔ ¬ wellFormedSecret secret)
    ∧ ((∃ pre bad rest, goBytes secret = pre ++ bad :: rest ∧ (∀ b ∈ pre, b ≠ 61)
          ∧ ¬ isAlphabetByte bad ∧ bad ≠ 61 ∧ bad ≠ 13 ∧ bad ≠ 10) →
        ¬ wellFormedSecret secret)
    ∧ ((∀ b ∈ goBytes secret, b ≠ 61) → (stripNewlines (goBytes secret)).length % 8 ≠ 0 →
        ¬ wellFormedSecret secret)
    ∧ (∀ pre rest : List Nat, stripNewlines (goBytes secret) = pre ++ 61 :: rest →
        (∀ b ∈ pre, isAlphabetByte b) →
        (wellFormedSecret secret ↔
          (pre.length % 8 = 2 ∨ pre.length % 8 = 4 ∨ pre.length % 8 = 5 ∨ pre.length % 8 = 7)
          ∧ 7 ≤ rest.length + pre.length % 8 ∧ rest.length < 8
          ∧ ∀ b ∈ rest.take (7 - pre.length % 8), b = 61)) := by
  refine ⟨?_, decodeString_none_iff secret, ?_, ?_, ?_⟩
  · intro h digits counter period unixTime algo
    exact Generate_bad_secret fuel now secret hs ((decodeString_none_iff secret).mpr h)
      digits counter period unixTime algo
  · rintro ⟨pre, bad, rest, hsplit, hpre, hbad, h61, h13, h10⟩
    rw [← decodeString_none_iff]
    have hstrip : stripNewlines (pre ++ bad :: rest)
        = stripNewlines pre ++ bad :: stripNewlines rest := by
      rw [stripNewlines_append]
      congr 1
      simp only [stripNewlines]
      rw [List.filter_cons_of_pos (by simp [h13, h10])]
    simp only [base32DecodeString, hsplit, hstrip]
    exact decode_bad bad _ (decodeMap_of_not_alphabet bad hbad) h61 _ _
      (fun b hb => hpre b (stripNewlines_mem pre b hb))
      (by simp only [List.length_append, List.length_cons]; omega)
  · intro hno h8
    rw [← decodeString_none_iff]
    simp only [base32DecodeString]
    exact decode_nopad _ _ (fun b hb => hno b (stripNewlines_mem _ b hb)) h8 (Nat.le_refl _)
  · intro pre rest hsplit hpre
    have hw := wellFormed_first_pad (stripNewlines (goBytes secret)).length pre rest hpre
      (by rw [hsplit])
    rw [← hsplit] at hw
    simp only [wellFormedSecret]
    rw [hw]
    have hj : pre.length % 8 < 8 := Nat.mod_lt _ (by decide)
    constructor
    · rintro ⟨h2, hr, hshort, hall, hbadj⟩
      exact ⟨by omega, by omega, hr, hall⟩
    · rintro ⟨hjs, hlong, hr, hall⟩
      exact ⟨by omega, hr, by omega, hall, by omega⟩

/-- Witness for C11 (amended): padding that is too short ("GE" with five `=`
where six are needed), padding that starts after three characters of a group,
and a secret whose last character is `1`. -/
theorem bad_secret_rejected_witness :
    (¬ wellFormedSecret "GE====="
      ∧ (HOTP.Generate 7 ⟨"GE=====", 6, 0⟩).2 = .ret "" (some "bad secret key")
      ∧ (TOTP.Generate 7 0 ⟨"GE=====", 6, "SHA1", 30, 59⟩).2
          = .ret "" (some "bad secret key"))
    ∧ (¬ wellFormedSecret "MFR====="
      ∧ (HOTP.Generate 7 ⟨"MFR=====", 6, 0⟩).2 = .ret "" (some "bad secret key")
      ∧ (TOTP.Generate 7 0 ⟨"MFR=====", 6, "SHA1", 30, 59⟩).2
          = .ret "" (some "bad secret key"))
    ∧ (¬ wellFormedSecret "GEZDGNBVGY3TQOJ1"
      ∧ (HOTP.Generate 7 ⟨"GEZDGNBVGY3TQOJ1", 6, 0⟩).2 = .ret "" (some "bad secret key")
      ∧ (TOTP.Generate 7 0 ⟨"GEZDGNBVGY3TQOJ1", 6, "SHA1", 30, 59⟩).2
          = .ret "" (some "bad secret key")) :=
  ⟨⟨by decide, (bad_secret_rejected 7 0 "GE=====" (by decide)).1 (by decide) 6 0 30 59 "SHA1"⟩,
    ⟨by decide,
      (bad_secret_rejected 7 0 "MFR=====" (by decide)).1 (by decide) 6 0 30 59 "SHA1"⟩,
    ⟨by decide,
      (bad_secret_rejected 7 0 "GEZDGNBVGY3TQOJ1" (by decide)).1 (by decide) 6 0 30 59 "SHA1"⟩⟩

/-- C12 as stated fails: "sha1" is none of the strings "SHA1", "SHA256",
"SHA512" and is not empty, yet `TOTP.Generate` accepts it and returns the
SHA-1 code. -/
theorem lower_case_algorithm_accepted :
    "sha1" ≠ "SHA1" ∧ "sha1" ≠ "SHA256" ∧ "sha1" ≠ "SHA512" ∧ "sha1" ≠ ""
    ∧ (TOTP.Generate 9 0 ⟨"GEZDGNBVGY3TQOJQGEZDGNBVGY3TQOJQ", 8, "sha1", 30, 59⟩).2
        = .ret "94287082" none
    ∧ (TOTP.Generate 9 0 ⟨"GEZDGNBVGY3TQOJQGEZDGNBVGY3TQOJQ", 8, "sha1", 30, 59⟩).2
        ≠ .ret "" (some invalidAlgorithm) := by
  have h : (TOTP.Generate 9 0 ⟨"GEZDGNBVGY3TQOJQGEZDGNBVGY3TQOJQ", 8, "sha1", 30, 59⟩).2
      = .ret "94287082" none := by decide!
  refine ⟨by decide, by decide, by decide, by decide, h, ?_⟩
  rw [h]
  decide

/-- C12, amended. For every non-empty secret that decodes and every non-empty
`Algorithm` whose upper-case form (`strings.ToUpper`) is none of "SHA1",
"SHA256", "SHA512", `TOTP.Generate` returns the empty code with the
invalid-algorithm error, whatever the digits, period, time, clock and loop
budget: nothing after the `switch` is reached. -/
theorem unsupported_algorithm (fuel : Nat) (now : Int) (secret : String) (key : List Nat)
    (algo : String) (digits period unixTime : Int)
    (hs : secret ≠ "") (hkey : base32DecodeString secret = some key) (ha : algo ≠ "")
    (hu : toUpper algo ≠ "SHA1" ∧ toUpper algo ≠ "SHA256" ∧ toUpper algo ≠ "SHA512") :
    (TOTP.Generate fuel now ⟨secret, digits, algo, period, unixTime⟩).2
      = .ret "" (some invalidAlgorithm) := by
  have hsel : selectHash algo = none := by
    simp only [selectHash, hu.1, hu.2.1, hu.2.2, if_false]
  rw [TOTP_Generate_snd fuel now _ hs]
  simp only [ha, if_false]
  exact generateOTP_bad_algo _ _ key _ _ _ hkey hsel

/-- Witness for C12 (amended): the algorithm "MD5", with digits that would
fault and an empty loop budget. -/
theorem unsupported_algorithm_witness :
    (TOTP.Generate 0 0 ⟨"GEZDGNBVGY3TQOJQGEZDGNBVGY3TQOJQ", -1, "MD5", 30, 59⟩).2
      = .ret "" (some invalidAlgorithm) :=
  unsupported_algorithm 0 0 "GEZDGNBVGY3TQOJQGEZDGNBVGY3TQOJQ" (goBytes "12345678901234567890")
    "MD5" (-1) 30 59 (by decide) (by decide) (by decide) (by decide)


/-- C18. Errors have a fixed precedence. An empty secret is reported as
"no secret key provided" whatever the other fields hold. A non-empty secret
that fails base-32 decoding is reported as "bad secret key" whatever the
algorithm name and the digits are. The invalid-algorithm error is returned
only for a non-empty secret that decodes. -/
theorem error_precedence (fuel : Nat) (now : Int) (totp : TOTP) (counter : Int) :
    (totp.Secret = "" →
      (TOTP.Generate fuel now totp).2 = .ret "" (some "no secret key provided")
      ∧ (HOTP.Generate fuel ⟨totp.Secret, totp.Digits, counter⟩).2
          = .ret "" (some "no secret key provided"))
    ∧ (totp.Secret ≠ "" → base32DecodeString totp.Secret = none →
      (TOTP.Generate fuel now totp).2 = .ret "" (some "bad secret key")
      ∧ (HOTP.Generate fuel ⟨totp.Secret, totp.Digits, counter⟩).2
          = .ret "" (some "bad secret key"))
    ∧ ((TOTP.Generate fuel now totp).2 = .ret "" (some invalidAlgorithm) →
      totp.Secret ≠ "" ∧ ∃ key, base32DecodeString totp.Secret = some key) := by
  refine ⟨?_, ?_, ?_⟩
  · intro hs
    simp [TOTP.Generate, HOTP.Generate, hs]
  · intro hs hdec
    have h := Generate_bad_secret fuel now totp.Secret hs hdec totp.Digits counter totp.Period
      totp.UnixTime totp.Algorithm
    exact ⟨h.2, h.1⟩
  · intro h
    by_cases hs : totp.Secret = ""
    · simp only [TOTP.Generate, hs, if_true] at h
      have hne : Outcome.ret "" (some "no secret key provided")
          ≠ Outcome.ret "" (some invalidAlgorithm) := by decide
      exact absurd h hne
    · refine ⟨hs, ?_⟩
      cases hdec : base32DecodeString totp.Secret with
      | some key => exact ⟨key, rfl⟩
      | none =>
        rw [TOTP_Generate_snd fuel now totp hs, generateOTP_bad_secret _ _ _ _ _ hdec] at h
        have hne : Outcome.ret "" (some "bad secret key")
            ≠ Outcome.ret "" (some invalidAlgorithm) := by decide
        exact absurd h hne

/-- Witness for C18: a malformed secret together with an unsupported algorithm
and negative digits. -/
theorem error_precedence_witness :
    (TOTP.Generate 7 0 ⟨"GEZDGNBVGY3TQOJ1", -1, "MD5", 30, 59⟩).2
      = .ret "" (some "bad secret key") :=
  ((error_precedence 7 0 ⟨"GEZDGNBVGY3TQOJ1", -1, "MD5", 30, 59⟩ 0).2.1
    (by decide) (by decide)).1

/-! ## Digits that are not positive -/

theorem pow10Uint32_neg (digits : Int) (h : digits < 0) : pow10Uint32 digits = 0 := by
  simp [pow10Uint32, h]

theorem generateOTP_zero_digits (fuel : Nat) (secret : String) (key : List Nat) (counter : Int)
    (algo : String) (alg : HashAlg) (hkey : base32DecodeString secret = some key)
    (halg : selectHash algo = some alg) :
    generateOTP fuel secret counter 0 algo = .timeout := by
  rw [generateOTP_eq fuel secret key counter 0 algo alg hkey halg]
  have hp : pow10Uint32 0 = 1 := by decide
  rw [hp, if_neg (by decide), Nat.mod_one]
  rw [padLoop_none fuel (itoa 0) 0 (by decide)]

/-- C20. Only `Digits = 0` is replaced by the default. For negative digits, a
non-empty secret that decodes and a supported algorithm, `HOTP.Generate` and
`TOTP.Generate` leave the negative value in place and pass it to
`generateOTP`, whose modulus is then 0, so the remainder faults with an
integer division by zero and nothing is returned. With `digits = 0` the
padding loop of `generateOTP` does not end within any budget, and neither
`Generate` passes 0: the digits they pass are 6 or the non-zero value given. -/
theorem negative_digits_fault (fuel : Nat) (now : Int) (secret : String) (key : List Nat)
    (digits : Int) (algo : String) (alg : HashAlg) (hs : secret ≠ "")
    (hkey : base32DecodeString secret = some key) (halg : selectHash algo = some alg)
    (hd : digits < 0) :
    (∀ counter : Int, HOTP.Generate fuel ⟨secret, digits, counter⟩
        = (⟨secret, digits, counter⟩, .fault "integer divide by zero"))
    ∧ (∀ period unixTime : Int,
        (TOTP.Generate fuel now ⟨secret, digits, algo, period, unixTime⟩).2
            = .fault "integer divide by zero"
        ∧ (TOTP.Generate fuel now ⟨secret, digits, algo, period, unixTime⟩).1.Digits = digits)
    ∧ (∀ counter : Int, generateOTP fuel secret counter digits algo
        = .fault "integer divide by zero")
    ∧ (∀ counter : Int, generateOTP fuel secret counter 0 algo = .timeout)
    ∧ (∀ hotp : HOTP, hotp.Secret ≠ "" → ∃ d : Int, d ≠ 0
        ∧ (HOTP.Generate fuel hotp).2 = generateOTP fuel hotp.Secret hotp.Counter d "SHA1")
    ∧ (∀ totp : TOTP, totp.Secret ≠ "" → ∃ (d c : Int) (a : String), d ≠ 0
        ∧ (TOTP.Generate fuel now totp).2 = generateOTP fuel totp.Secret c d a) := by
  have hd0 : digits ≠ 0 := by omega
  have hfault : ∀ (counter : Int) (a : String) (g : HashAlg), selectHash a = some g →
      generateOTP fuel secret counter digits a = .fault "integer divide by zero" := by
    intro counter a g hg
    rw [generateOTP_eq fuel secret key counter digits a g hkey hg, pow10Uint32_neg digits hd,
      if_pos rfl]
  have hsix : ∀ x : Int, (if x = 0 then (6 : Int) else x) ≠ 0 := by
    intro x
    split_ifs with h
    · decide
    · exact h
  refine ⟨?_, ?_, ?_, ?_, ?_, ?_⟩
  · intro counter
    simp only [HOTP.Generate, hs, hd0, if_false]
    rw [hfault counter "SHA1" .sha1 (by decide)]
  · intro period unixTime
    have ha : algo ≠ "" := by
      intro h
      have hn : selectHash "" = none := by decide
      rw [h, hn] at halg
      exact Option.noConfusion halg
    constructor
    · rw [TOTP_Generate_snd fuel now _ hs]
      simp only [hd0, ha, if_false]
      exact hfault _ algo alg halg
    · rw [TOTP_Generate_fst fuel now _ hs, defaulted_Digits]
      simp only [hd0, if_false]
  · intro counter
    exact hfault counter algo alg halg
  · intro counter
    exact generateOTP_zero_digits fuel secret key counter algo alg hkey halg
  · intro hotp hh
    exact ⟨_, hsix hotp.Digits, HOTP_Generate_snd fuel hotp hh⟩
  · intro totp ht
    exact ⟨_, _, _, hsix totp.Digits, TOTP_Generate_snd fuel now totp ht⟩

/-- Witness for C20: the RFC 4226 secret with `Digits = -1`. -/
theorem negative_digits_fault_witness :
    HOTP.Generate 7 ⟨"GEZDGNBVGY3TQOJQGEZDGNBVGY3TQOJQ", -1, 0⟩
      = (⟨"GEZDGNBVGY3TQOJQGEZDGNBVGY3TQOJQ", -1, 0⟩, .fault "integer divide by zero") :=
  (negative_digits_fault 7 0 "GEZDGNBVGY3TQOJQGEZDGNBVGY3TQOJQ"
    (goBytes "12345678901234567890") (-1) "SHA1" .sha1
    (by decide) (by decide) (by decide) (by decide)).1 0


/-! ## Letter case of the algorithm name -/

theorem toUpperRune_of_upper (c : Char) (h1 : 65 ≤ c.toNat) (h2 : c.toNat ≤ 90) :
    toUpperRune c = c := by
  have ha : ¬ c.toNat = 0x17F := by omega
  have hb : ¬ c.toNat = 0x131 := by omega
  have hc : ¬ (c.toNat ≥ 97 ∧ c.toNat ≤ 122) := by omega
  simp only [toUpperRune, ha, hb, if_false, Char.toUpper, hc]

theorem toUpperRune_of_lower (c c' : Char) (h1 : 65 ≤ c.toNat) (h2 : c.toNat ≤ 90)
    (h : c'.toNat = c.toNat + 32) : toUpperRune c' = c := by
  have ha : ¬ c'.toNat = 0x17F := by omega
  have hb : ¬ c'.toNat = 0x131 := by omega
  have hc : c'.toNat ≥ 97 ∧ c'.toNat ≤ 122 := by omega
  have hd : c'.toNat - 32 = c.toNat := by omega
  simp only [toUpperRune, ha, hb, if_false, Char.toUpper, hc, and_self, if_true, hd,
    Char.ofNat_toNat]

theorem toUpperRune_sameLetter (c c' : Char) (h : sameLetter c c' = true) :
    toUpperRune c = toUpperRune c' := by
  simp only [sameLetter, Bool.or_eq_true, Bool.and_eq_true, decide_eq_true_eq,
    beq_iff_eq] at h
  rcases h with (h | ⟨⟨h1, h2⟩, h3⟩) | ⟨⟨h1, h2⟩, h3⟩
  · rw [h]
  · rw [toUpperRune_of_upper c h1 h2, toUpperRune_of_lower c c' h1 h2 h3]
  · rw [toUpperRune_of_upper c' h1 h2, toUpperRune_of_lower c' c h1 h2 h3]

theorem map_toUpperRune_same : ∀ (a b : List Char), sameUpToCaseList a b = true →
    a.map toUpperRune = b.map toUpperRune ∧ (a = [] ↔ b = [])
  | [], [], _ => ⟨rfl, Iff.rfl⟩
  | [], _ :: _, h => by simp [sameUpToCaseList] at h
  | _ :: _, [], h => by simp [sameUpToCaseList] at h
  | c :: cs, c' :: cs', h => by
    simp only [sameUpToCaseList, Bool.and_eq_true] at h
    have ih := map_toUpperRune_same cs cs' h.2
    simp [toUpperRune_sameLetter c c' h.1, ih.1]

theorem selectHash_same (a b : String) (h : sameUpToCase a b = true) :
    selectHash a = selectHash b ∧ (a = "" ↔ b = "") := by
  have hm := map_toUpperRune_same a.data b.data h
  have hu : toUpper a = toUpper b := by
    simp only [toUpper, hm.1]
  refine ⟨by simp only [selectHash, hu], ?_⟩
  have e : ∀ s : String, s = "" ↔ s.data = [] := by
    intro s
    constructor
    · intro h; rw [h]
    · intro h; exact String.ext h
  rw [e a, e b]
  exact hm.2

/-- C19. Algorithm names are matched without regard to letter case: replacing
`Algorithm` by a string that differs from it only in the case of basic Latin
letters leaves the outcome of `TOTP.Generate` (code and error) unchanged, for
every `TOTP` value. -/
theorem algorithm_case_insensitive (fuel : Nat) (now : Int) (totp : TOTP) (algo : String)
    (h : sameUpToCase totp.Algorithm algo = true) :
    (TOTP.Generate fuel now { totp with Algorithm := algo }).2
      = (TOTP.Generate fuel now totp).2 := by
  obtain ⟨hsel, hemp⟩ := selectHash_same totp.Algorithm algo h
  by_cases hs : totp.Secret = ""
  · simp only [TOTP.Generate, hs, if_true]
  · have hs' : ({ totp with Algorithm := algo } : TOTP).Secret ≠ "" := hs
    rw [TOTP_Generate_snd fuel now totp hs,
      TOTP_Generate_snd fuel now { totp with Algorithm := algo } hs']
    simp only [TOTP.timestamp]
    by_cases ha : totp.Algorithm = ""
    · have hb : algo = "" := hemp.mp ha
      simp only [ha, hb, if_true]
    · have hb : algo ≠ "" := fun hb => ha (hemp.mpr hb)
      simp only [ha, hb, if_false]
      exact generateOTP_select _ _ _ _ _ _ hsel.symm

/-- Witness for C19: "sha256" in place of "SHA256". -/
theorem algorithm_case_insensitive_witness :
    (TOTP.Generate 9 0 ⟨"GEZDGNBVGY3TQOJQGEZDGNBVGY3TQOJQ", 8, "sha256", 30, 59⟩).2
      = (TOTP.Generate 9 0 ⟨"GEZDGNBVGY3TQOJQGEZDGNBVGY3TQOJQ", 8, "SHA256", 30, 59⟩).2 :=
  algorithm_case_insensitive 9 0 ⟨"GEZDGNBVGY3TQOJQGEZDGNBVGY3TQOJQ", 8, "SHA256", 30, 59⟩
    "sha256" (by decide)


/-! ## Shorter codes are suffixes of longer ones -/

theorem decPad_length (d : Nat) : ∀ n, (decPad d n).length = d := by
  induction d with
  | zero => intro n; rfl
  | succ d ih => intro n; simp [decPad, ih]

theorem decPad_zero (d : Nat) : decPad d 0 = List.replicate d '0' := by
  induction d with
  | zero => rfl
  | succ d ih =>
    simp only [decPad, Nat.zero_div, Nat.zero_mod, ih, List.replicate_succ']
    rfl

theorem toDigitsCore_acc (f : Nat) : ∀ (n : Nat) (ds : List Char),
    Nat.toDigitsCore 10 f n ds = Nat.toDigitsCore 10 f n [] ++ ds := by
  induction f with
  | zero => intro n ds; simp [Nat.toDigitsCore]
  | succ f ih =>
    intro n ds
    simp only [Nat.toDigitsCore]
    split_ifs with h
    · simp
    · rw [ih (n / 10) (Nat.digitChar (n % 10) :: ds), ih (n / 10) [Nat.digitChar (n % 10)]]
      simp

/-- The decimal rendering of `n < 10 ^ (d + 1)`, zero-filled on the left, is
the list of its `d + 1` low digits. -/
theorem toDigitsCore_decPad (d : Nat) : ∀ (f n : Nat), n < f → n < 10 ^ (d + 1) →
    ∃ k, List.replicate k '0' ++ Nat.toDigitsCore 10 f n [] = decPad (d + 1) n := by
  induction d with
  | zero =>
    intro f n hf hn
    obtain ⟨g, rfl⟩ : ∃ g, f = g + 1 := ⟨f - 1, by omega⟩
    have h0 : n / 10 = 0 := by omega
    have h1 : n % 10 = n := by omega
    exact ⟨0, by simp [Nat.toDigitsCore, decPad, h0, h1]⟩
  | succ d ih =>
    intro f n hf hn
    obtain ⟨g, rfl⟩ : ∃ g, f = g + 1 := ⟨f - 1, by omega⟩
    by_cases h0 : n / 10 = 0
    · refine ⟨d + 1, ?_⟩
      have e : decPad (d + 1 + 1) n = decPad (d + 1) (n / 10) ++ [Nat.digitChar (n % 10)] := rfl
      rw [e, h0, decPad_zero]
      simp [Nat.toDigitsCore, h0]
    · have hn' : n / 10 < 10 ^ (d + 1) := by
        rw [Nat.div_lt_iff_lt_mul (by decide)]
        rw [Nat.pow_succ] at hn
        exact hn
      obtain ⟨k, hk⟩ := ih g (n / 10) (by omega) hn'
      refine ⟨k, ?_⟩
      have e : decPad (d + 1 + 1) n = decPad (d + 1) (n / 10) ++ [Nat.digitChar (n % 10)] := rfl
      rw [e, ← hk]
      simp only [Nat.toDigitsCore, h0, if_false]
      rw [toDigitsCore_acc g (n / 10) [Nat.digitChar (n % 10)]]
      simp

theorem padded_itoa (d n : Nat) (hd : 0 < d) (hn : n < 10 ^ d) :
    (String.mk (List.replicate (d - (itoa n).length) '0') ++ itoa n).data = decPad d n := by
  obtain ⟨e, rfl⟩ : ∃ e, d = e + 1 := ⟨d - 1, by omega⟩
  obtain ⟨k, hk⟩ := toDigitsCore_decPad e (n + 1) n (by omega) hn
  have hdata : (itoa n).data = Nat.toDigitsCore 10 (n + 1) n [] := rfl
  have hlen : (itoa n).length = (Nat.toDigitsCore 10 (n + 1) n []).length := rfl
  have hk2 := congrArg List.length hk
  rw [List.length_append, List.length_replicate, decPad_length] at hk2
  have hkeq : e + 1 - (itoa n).length = k := by omega
  rw [hkeq]
  rw [← hk]
  simp [String.append, hdata]

theorem decPad_mod (d : Nat) : ∀ (e n : Nat), d ≤ e → decPad d (n % 10 ^ e) = decPad d n := by
  induction d with
  | zero => intro e n _; rfl
  | succ d ih =>
    intro e n he
    obtain ⟨e', rfl⟩ : ∃ e', e = e' + 1 := ⟨e - 1, by omega⟩
    have h1 : n % 10 ^ (e' + 1) / 10 = n / 10 % 10 ^ e' := by
      rw [Nat.pow_succ, Nat.mul_comm, Nat.mod_mul_right_div_self]
    have h2 : n % 10 ^ (e' + 1) % 10 = n % 10 := by
      rw [Nat.pow_succ]
      exact Nat.mod_mul_left_mod n (10 ^ e') 10
    simp only [decPad, h1, h2, ih e' (n / 10) (by omega)]

theorem decPad_drop (d : Nat) : ∀ (j n : Nat), (decPad (d + j) n).drop j = decPad d n := by
  induction d with
  | zero =>
    intro j n
    rw [List.drop_of_length_le (by rw [decPad_length]; omega)]
    rfl
  | succ d ih =>
    intro j n
    have e : decPad (d + 1 + j) n = decPad (d + j) (n / 10) ++ [Nat.digitChar (n % 10)] := by
      have : d + 1 + j = (d + j) + 1 := by omega
      rw [this]
      rfl
    rw [e, List.drop_append_of_le_length (by rw [decPad_length]; omega), ih j (n / 10)]
    rfl


/-- C17. For a secret that decodes, any counter, a supported algorithm and
`1 ≤ d ≤ d' ≤ 9`, `generateOTP` returns a code for `d` digits and a code for
`d'` digits (with a nil error, once the loop budget exceeds `d'`), the longer
one has `d'` characters, and the shorter one is exactly its last `d`
characters. -/
theorem shorter_code_is_suffix (fuel : Nat) (secret : String) (key : List Nat) (counter : Int)
    (algo : String) (alg : HashAlg) (d d' : Nat)
    (hkey : base32DecodeString secret = some key) (halg : selectHash algo = some alg)
    (hd : 1 ≤ d ∧ d ≤ d' ∧ d' ≤ 9) (hfuel : d' < fuel) :
    ∃ c c', generateOTP fuel secret counter d algo = .ret c none
      ∧ generateOTP fuel secret counter d' algo = .ret c' none
      ∧ c'.length = d' ∧ c.data = c'.data.drop (d' - d) := by
  obtain ⟨h1, h2, h3⟩ := hd
  rw [generateOTP_eq fuel secret key counter d algo alg hkey halg,
    generateOTP_eq fuel secret key counter d' algo alg hkey halg,
    pow10Uint32_small d (by omega), pow10Uint32_small d' h3]
  have hp : 0 < 10 ^ d := Nat.pow_pos (by decide)
  have hp' : 0 < 10 ^ d' := Nat.pow_pos (by decide)
  rw [if_neg (by omega), if_neg (by omega)]
  generalize dynTrunc (hmacSum alg key (beBytes 8 (uint64 counter))) = D
  rw [padLoop_itoa fuel d _ h1 (Nat.mod_lt _ hp) (by omega),
    padLoop_itoa fuel d' _ (by omega) (Nat.mod_lt _ hp') hfuel]
  refine ⟨_, _, rfl, rfl, ?_, ?_⟩
  · have := congrArg List.length (padded_itoa d' (D % 10 ^ d') (by omega) (Nat.mod_lt _ hp'))
    rw [decPad_length] at this
    exact this
  · rw [padded_itoa d (D % 10 ^ d) h1 (Nat.mod_lt _ hp),
      padded_itoa d' (D % 10 ^ d') (by omega) (Nat.mod_lt _ hp'),
      decPad_mod d d D (Nat.le_refl _)]
    obtain ⟨j, rfl⟩ : ∃ j, d' = d + j := ⟨d' - d, by omega⟩
    rw [Nat.add_sub_cancel_left, decPad_drop d j, decPad_mod d (d + j) D (by omega)]

/-- Witness for C17: the six-digit code of counter 1, "287082", is the end of
the eight-digit code "94287082". -/
theorem shorter_code_is_suffix_witness :
    (∃ c c', generateOTP 9 "GEZDGNBVGY3TQOJQGEZDGNBVGY3TQOJQ" 1 (6 : Nat) "SHA1" = .ret c none
      ∧ generateOTP 9 "GEZDGNBVGY3TQOJQGEZDGNBVGY3TQOJQ" 1 (8 : Nat) "SHA1" = .ret c' none
      ∧ c'.length = 8 ∧ c.data = c'.data.drop (8 - 6))
    ∧ generateOTP 9 "GEZDGNBVGY3TQOJQGEZDGNBVGY3TQOJQ" 1 6 "SHA1" = .ret "287082" none
    ∧ generateOTP 9 "GEZDGNBVGY3TQOJQGEZDGNBVGY3TQOJQ" 1 8 "SHA1" = .ret "94287082" none :=
  ⟨shorter_code_is_suffix 9 "GEZDGNBVGY3TQOJQGEZDGNBVGY3TQOJQ" (goBytes "12345678901234567890")
      1 "SHA1" .sha1 6 8 (by decide) (by decide) (by decide) (by decide),
    by decide!, by decide!⟩


/-! ## Ten digits and more -/

/-- C16 fails on the code. With ten digits the modulus `uint32(math.Pow10(10))`
is 1410065408, not `10 ^ 10`: for the RFC 4226 secret and counter 3 the
truncated value `D` is 1726969429, the specified code (`D mod 10 ^ 10`, ten
characters) is "1726969429", and `generateOTP` returns "0316904021". With
nineteen digits the modulus is 0 and the remainder faults. -/
theorem ten_digits_modulus_wraps :
    pow10Uint32 10 = 1410065408
    ∧ dynTrunc (hmacSum .sha1 (goBytes "12345678901234567890") (beBytes 8 (uint64 3)))
        = 1726969429
    ∧ specCode .sha1 (goBytes "12345678901234567890") 3 10 = "1726969429"
    ∧ generateOTP 11 "GEZDGNBVGY3TQOJQGEZDGNBVGY3TQOJQ" 3 10 "SHA1" = .ret "0316904021" none
    ∧ generateOTP 11 "GEZDGNBVGY3TQOJQGEZDGNBVGY3TQOJQ" 3 10 "SHA1"
        ≠ .ret (specCode .sha1 (goBytes "12345678901234567890") 3 10) none
    ∧ generateOTP 20 "GEZDGNBVGY3TQOJQGEZDGNBVGY3TQOJQ" 3 19 "SHA1"
        = .fault "integer divide by zero" := by
  have hs : specCode .sha1 (goBytes "12345678901234567890") 3 10 = "1726969429" := by decide!
  have hg : generateOTP 11 "GEZDGNBVGY3TQOJQGEZDGNBVGY3TQOJQ" 3 10 "SHA1"
      = .ret "0316904021" none := by decide!
  refine ⟨by decide, by decide!, hs, hg, ?_, by decide!⟩
  rw [hs, hg]
  decide


end Otpgen
